import Mathlib

/-!
# BopomofoEditor (src/PYPBopomofoEditor.cc) — a shallow embedding

The editor object is a record of its data members; every member function is a
Lean function from the old record to the new one.  Calls that leave the file
(backend, host views, base class) are appended to the `calls` log of the
record so that "is called / is not called" is a statement about that log.

A member function that can stop abnormally (an exception of `std::string`,
a failed `g_assert`, a read outside an array) returns `Option`; `none` is the
abnormal stop.

Characters are byte values (`Nat` below 256); key values and modifier masks are
`Nat` (they are `guint` in the source; no arithmetic on them can wrap here).
-/

set_option linter.unusedVariables false

namespace PY

/-! ## Key values and modifier bits (ibuskeysyms.h, ibustypes.h) -/

def IBUS_space : Nat := 0x020
def IBUS_BackSpace : Nat := 0xff08
def IBUS_Tab : Nat := 0xff09
def IBUS_Home : Nat := 0xff50
def IBUS_Left : Nat := 0xff51
def IBUS_Up : Nat := 0xff52
def IBUS_Right : Nat := 0xff53
def IBUS_Down : Nat := 0xff54
def IBUS_Page_Up : Nat := 0xff55
def IBUS_Page_Down : Nat := 0xff56
def IBUS_End : Nat := 0xff57
def IBUS_KP_Home : Nat := 0xff95
def IBUS_KP_Left : Nat := 0xff96
def IBUS_KP_Up : Nat := 0xff97
def IBUS_KP_Right : Nat := 0xff98
def IBUS_KP_Down : Nat := 0xff99
def IBUS_KP_Page_Up : Nat := 0xff9a
def IBUS_KP_Page_Down : Nat := 0xff9b
def IBUS_KP_End : Nat := 0xff9c
def IBUS_KP_Delete : Nat := 0xff9f
def IBUS_KP_0 : Nat := 0xffb0
def IBUS_KP_1 : Nat := 0xffb1
def IBUS_KP_9 : Nat := 0xffb9
def IBUS_F1 : Nat := 0xffbe
def IBUS_F10 : Nat := 0xffc7
def IBUS_Delete : Nat := 0xffff

def IBUS_SHIFT_MASK : Nat := 1
def IBUS_LOCK_MASK : Nat := 2
def IBUS_CONTROL_MASK : Nat := 4
def IBUS_MOD1_MASK : Nat := 8
def IBUS_SUPER_MASK : Nat := 67108864
def IBUS_HYPER_MASK : Nat := 134217728
def IBUS_META_MASK : Nat := 268435456

/-- Modelled from the spec: `cmshm_filter` is declared in a header that is not
part of src/.  The spec calls its non-zero result "non-trivial modifiers": any
of control, alt/meta, super, hyper or caps-lock held; shift is tolerated. -/
def cmshm_filter (modifiers : Nat) : Nat :=
  modifiers &&& (IBUS_CONTROL_MASK ||| IBUS_MOD1_MASK ||| IBUS_SUPER_MASK |||
    IBUS_HYPER_MASK ||| IBUS_META_MASK ||| IBUS_LOCK_MASK)

/-! ## The select-key table -/

/-- The byte values of a C string literal. -/
def bytes (lit : String) : List Nat := lit.toList.map Char.toNat

/-- The table `bopomofo_select_keys` of the source, lines 32-42. -/
def bopomofo_select_keys : List (List Nat) :=
  [ bytes "1234567890",
    bytes "asdfghjkl;",
    bytes "1qaz2wsxed",
    bytes "asdfzxcvgb",
    bytes "1234qweras",
    bytes "aoeu;qjkix",
    bytes "aoeuhtnsid",
    bytes "aoeuidhtns",
    bytes "qweasdzxcr" ]

/-! ## Calls that leave the file -/

/-- One decoration of a `StaticText`: the arguments of `appendAttribute`.  An
`end_index` of -1 is the host's notation for the end of the text. -/
structure Attribute where
  type : Nat
  value : Nat
  start_index : Int
  end_index : Int
  deriving DecidableEq, Repr

def IBUS_ATTR_TYPE_UNDERLINE : Nat := 1
def IBUS_ATTR_UNDERLINE_SINGLE : Nat := 1

/-- One call from this file to a collaborator, with its arguments. -/
inductive Call where
  | update
  | selectCandidateInPage (i : Nat)
  | pinyin_in_chewing_keyboard (key : Nat)
  | pinyin_parse_more_chewings (text : List Nat)
  | pinyin_guess_sentence
  | pinyin_get_sentence
  | pinyin_train
  | rememberUserInput
  | modified
  | PhoneticEditor_commit (text : List Nat)
  | PhoneticEditor_reset
  | processSpace (keyval keycode modifiers : Nat)
  | processFunctionKey (keyval keycode modifiers : Nat)
  | hidePreeditText
  | pinyin_get_character_offset (sentence : Option (List Nat)) (cursor : Nat)
  | Editor_updatePreeditText (text : List Nat) (attributes : List Attribute)
      (cursor : Nat) (visible : Bool)
  deriving DecidableEq, Repr

/-! ## The editor record -/

/-- The data members this file reads or writes.  `m_select_mode` is declared by
`BopomofoEditor`; the others are inherited. -/
structure BopomofoEditor where
  m_text : List Nat
  m_cursor : Nat
  m_pinyin_len : Nat
  m_select_mode : Bool
  m_buffer : List Nat
  calls : List Call
  deriving DecidableEq, Repr

/-- The settings object `m_config`. -/
structure Config where
  guideKey : Bool
  auxiliarySelectKeyKP : Bool
  auxiliarySelectKeyF : Bool
  selectKeys : Nat
  rememberEveryInput : Bool

/-- The properties object `m_props`. -/
structure PinyinProperties where
  modeSimp : Bool
  modeFull : Bool

/-- Everything the editor is given from outside: the constant `MAX_PINYIN_LEN`,
the two settings objects, the answers of the backend session `m_instance`, the
text converters and the two key handlers of the base class.

* `pinyin_in_chewing_keyboard key` is `none` when the backend returns false and
  `some symbols` when it returns true and fills the string vector `symbols`.
* `pinyin_parse_more_chewings text` is the recognised length the backend returns.
* `pinyin_get_sentence` is `none` when the backend leaves the pointer `NULL`.
* `toFull c` is the byte sequence that
  `m_buffer.appendUnichar (HalfFullConverter::toFull (c))` appends.
* `processSpace` and `processFunctionKey` are the handlers of `PhoneticEditor`;
  nothing is assumed about them.
* `getPinyinCursor` is the cursor translation of `PhoneticEditor`.
* `pinyin_get_character_offset sentence cursor` is `none` when the backend
  returns false and `some offset` when it returns true and stores `offset`.

A list given by the backend or a converter stands for the bytes of a C string
before its terminating NUL. -/
structure Env where
  MAX_PINYIN_LEN : Nat
  m_config : Config
  m_props : PinyinProperties
  pinyin_in_chewing_keyboard : Nat → Option (List (List Nat))
  pinyin_parse_more_chewings : List Nat → Nat
  pinyin_get_sentence : Option (List Nat)
  simpToTrad : List Nat → List Nat
  toFull : Nat → List Nat
  processSpace : BopomofoEditor → Nat → Nat → Nat → Option (Bool × BopomofoEditor)
  processFunctionKey : BopomofoEditor → Nat → Nat → Nat → Option (Bool × BopomofoEditor)
  getPinyinCursor : BopomofoEditor → Nat
  pinyin_get_character_offset : Option (List Nat) → Nat → Option Nat

/-- Append one call to the log. -/
def log (s : BopomofoEditor) (c : Call) : BopomofoEditor :=
  { s with calls := s.calls ++ [c] }

/-- Narrowing of an integer argument to one `gchar`: `m_text` is a byte string
(commit reads it through `const gchar *`), so `m_text.insert (pos, ch)` stores
the low byte of `ch`. -/
def gchar (ch : Nat) : Nat := ch % 256

/-- The bytes `c_str ()` exposes: the text up to its first NUL byte. -/
def c_str (text : List Nat) : List Nat := text.takeWhile (fun c => c != 0)

/-- The editor right after the constructor: empty text, `m_select_mode (FALSE)`. -/
def construct : BopomofoEditor :=
  { m_text := [], m_cursor := 0, m_pinyin_len := 0, m_select_mode := false,
    m_buffer := [], calls := [] }

/-- Modelled from the spec: `PhoneticEditor::update` (base class, not in src/)
asks the host to refresh its views; it changes no data member of the model. -/
def update (s : BopomofoEditor) : BopomofoEditor := log s Call.update

/-- Modelled from the spec: `PhoneticEditor::selectCandidateInPage` (base class,
not in src/) forwards "select candidate at page index N" to the candidate page,
which the editor does not own. -/
def selectCandidateInPage (s : BopomofoEditor) (i : Nat) : BopomofoEditor :=
  log s (Call.selectCandidateInPage i)

/-- Modelled from the spec: `PhoneticEditor::reset` (base class, not in src/) is
the buffer's `clear()`: symbols empty, cursor 0, recognised prefix length 0. -/
def PhoneticEditor_reset (s : BopomofoEditor) : BopomofoEditor :=
  log { s with m_text := [], m_cursor := 0, m_pinyin_len := 0 } Call.PhoneticEditor_reset

/-- Modelled from the spec: `PhoneticEditor::commit (const gchar *)` (base class,
not in src/) hands the text to the host ("commit(text)"). -/
def PhoneticEditor_commit (s : BopomofoEditor) (text : List Nat) : BopomofoEditor :=
  log s (Call.PhoneticEditor_commit text)

/-! ## The member functions of the file -/

/-- `BopomofoEditor::reset`, lines 58-63. -/
def reset (s : BopomofoEditor) : BopomofoEditor :=
  PhoneticEditor_reset { s with m_select_mode := false }

/-- `BopomofoEditor::updatePinyin`, lines 240-254. -/
def updatePinyin (env : Env) (s : BopomofoEditor) : BopomofoEditor :=
  if s.m_text.isEmpty then
    log (log { s with m_pinyin_len := 0 } (Call.pinyin_parse_more_chewings []))
      Call.pinyin_guess_sentence
  else
    log (log { s with m_pinyin_len := env.pinyin_parse_more_chewings (c_str s.m_text) }
          (Call.pinyin_parse_more_chewings (c_str s.m_text)))
      Call.pinyin_guess_sentence

/-- `BopomofoEditor::insert`, lines 65-77.  `std::string::insert` throws when the
position is past the end: that is the `none`. -/
def insert (env : Env) (s : BopomofoEditor) (ch : Nat) : Option (Bool × BopomofoEditor) :=
  if s.m_text.length ≥ env.MAX_PINYIN_LEN then
    some (true, s)
  else if s.m_cursor > s.m_text.length then
    none
  else
    let s1 := { s with
      m_text := s.m_text.take s.m_cursor ++ gchar ch :: s.m_text.drop s.m_cursor,
      m_cursor := s.m_cursor + 1 }
    some (true, update (updatePinyin env s1))

/-- `BopomofoEditor::processGuideKey`, lines 80-100. -/
def processGuideKey (env : Env) (s : BopomofoEditor) (keyval keycode modifiers : Nat) :
    Bool × BopomofoEditor :=
  if !env.m_config.guideKey then (false, s)
  else if cmshm_filter modifiers ≠ 0 then (false, s)
  else if s.m_select_mode then (false, s)
  else if keyval = IBUS_space then (true, update { s with m_select_mode := true })
  else (false, s)

/-- The `switch` of `processAuxiliarySelectKey`, lines 111-129: the index `i`,
or `none` where the source returns `FALSE`. -/
def auxiliarySelectIndex (env : Env) (keyval : Nat) : Option Nat :=
  if keyval = IBUS_KP_0 then
    if !env.m_config.auxiliarySelectKeyKP then none else some 9
  else if IBUS_KP_1 ≤ keyval ∧ keyval ≤ IBUS_KP_9 then
    if !env.m_config.auxiliarySelectKeyKP then none else some (keyval - IBUS_KP_1)
  else if IBUS_F1 ≤ keyval ∧ keyval ≤ IBUS_F10 then
    if !env.m_config.auxiliarySelectKeyF then none else some (keyval - IBUS_F1)
  else none

/-- `BopomofoEditor::processAuxiliarySelectKey`, lines 102-136. -/
def processAuxiliarySelectKey (env : Env) (s : BopomofoEditor)
    (keyval keycode modifiers : Nat) : Bool × BopomofoEditor :=
  if cmshm_filter modifiers ≠ 0 then (false, s)
  else
    match auxiliarySelectIndex env keyval with
    | none => (false, s)
    | some i => (true, update (selectCandidateInPage { s with m_select_mode := true } i))

/-- The scan of lines 148-153: `pos` ends at the last position of `keys` whose
character equals `keyval`, or stays `NULL`. -/
def scanSelectKeys (keyval : Nat) : List Nat → Nat → Option Nat → Option Nat
  | [], _, pos => pos
  | c :: p, i, pos => scanSelectKeys keyval p (i + 1) (if c = keyval then some i else pos)

/-- `BopomofoEditor::processSelectKey`, lines 138-165.  An index outside the
table is a read outside the array: that is the `none`. -/
def processSelectKey (env : Env) (s : BopomofoEditor) (keyval keycode modifiers : Nat) :
    Option (Bool × BopomofoEditor) :=
  if s.m_text.isEmpty then some (false, s)
  else if !s.m_select_mode && (modifiers &&& IBUS_MOD1_MASK == 0) then some (false, s)
  else
    match bopomofo_select_keys[env.m_config.selectKeys]? with
    | none => none
    | some keys =>
      match scanSelectKeys keyval keys 0 none with
      | none => some (false, s)
      | some i =>
        some (true, update (selectCandidateInPage { s with m_select_mode := true } i))

/-- `BopomofoEditor::processBopomofo`, lines 167-185. -/
def processBopomofo (env : Env) (s : BopomofoEditor) (keyval keycode modifiers : Nat) :
    Option (Bool × BopomofoEditor) :=
  if cmshm_filter modifiers ≠ 0 then some (!s.m_text.isEmpty, s)
  else
    let s1 := log s (Call.pinyin_in_chewing_keyboard keyval)
    match env.pinyin_in_chewing_keyboard keyval with
    | none => some (false, s1)
    | some _ =>
      if keyval = IBUS_space then some (false, s1)
      else insert env { s1 with m_select_mode := false } keyval

/-- The `switch` at the end of `processKeyEvent`, lines 209-237. -/
def processKeyEventFallback (env : Env) (s : BopomofoEditor)
    (keyval keycode modifiers : Nat) : Option (Bool × BopomofoEditor) :=
  if keyval = IBUS_space then
    env.processSpace (log { s with m_select_mode := true }
      (Call.processSpace keyval keycode modifiers)) keyval keycode modifiers
  else if keyval = IBUS_Up ∨ keyval = IBUS_KP_Up ∨ keyval = IBUS_Down ∨
      keyval = IBUS_KP_Down ∨ keyval = IBUS_Page_Up ∨ keyval = IBUS_KP_Page_Up ∨
      keyval = IBUS_Page_Down ∨ keyval = IBUS_KP_Page_Down ∨ keyval = IBUS_Tab then
    env.processFunctionKey (log { s with m_select_mode := true }
      (Call.processFunctionKey keyval keycode modifiers)) keyval keycode modifiers
  else if keyval = IBUS_BackSpace ∨ keyval = IBUS_Delete ∨ keyval = IBUS_KP_Delete ∨
      keyval = IBUS_Left ∨ keyval = IBUS_KP_Left ∨ keyval = IBUS_Right ∨
      keyval = IBUS_KP_Right ∨ keyval = IBUS_Home ∨ keyval = IBUS_KP_Home ∨
      keyval = IBUS_End ∨ keyval = IBUS_KP_End then
    env.processFunctionKey (log { s with m_select_mode := false }
      (Call.processFunctionKey keyval keycode modifiers)) keyval keycode modifiers
  else
    env.processFunctionKey (log s (Call.processFunctionKey keyval keycode modifiers))
      keyval keycode modifiers

/-- The seven modifier bits `processKeyEvent` keeps, lines 191-197. -/
def KEY_EVENT_MASK : Nat :=
  IBUS_SHIFT_MASK ||| IBUS_CONTROL_MASK ||| IBUS_MOD1_MASK ||| IBUS_SUPER_MASK |||
    IBUS_HYPER_MASK ||| IBUS_META_MASK ||| IBUS_LOCK_MASK

/-- `BopomofoEditor::processKeyEvent`, lines 187-238. -/
def processKeyEvent (env : Env) (s : BopomofoEditor) (keyval keycode modifiers : Nat) :
    Option (Bool × BopomofoEditor) :=
  let modifiers := modifiers &&& KEY_EVENT_MASK
  match processGuideKey env s keyval keycode modifiers with
  | (true, s1) => some (true, s1)
  | (false, s1) =>
    match processSelectKey env s1 keyval keycode modifiers with
    | none => none
    | some (true, s2) => some (true, s2)
    | some (false, s2) =>
      match processAuxiliarySelectKey env s2 keyval keycode modifiers with
      | (true, s3) => some (true, s3)
      | (false, s3) =>
        match processBopomofo env s3 keyval keycode modifiers with
        | none => none
        | some (true, s4) => some (true, s4)
        | some (false, s4) => processKeyEventFallback env s4 keyval keycode modifiers

/-- The loop of `commit`, lines 278-292, over the bytes `p` still to read.  A
backend answer with other than one symbol fails the `g_assert`: that is the
`none`. -/
def commitRest (env : Env) : List Nat → BopomofoEditor → Option BopomofoEditor
  | [], s => some s
  | c :: p, s =>
    let s1 := log s (Call.pinyin_in_chewing_keyboard c)
    match env.pinyin_in_chewing_keyboard c with
    | some symbols =>
      match symbols with
      | [symbol] => commitRest env p { s1 with m_buffer := s1.m_buffer ++ symbol }
      | _ => none
    | none =>
      if env.m_props.modeFull then
        commitRest env p { s1 with m_buffer := s1.m_buffer ++ env.toFull c }
      else
        commitRest env p { s1 with m_buffer := s1.m_buffer ++ [c] }

/-- Lines 262-274 of `commit`: clear `m_buffer`, then append the sentence. -/
def commitSentence (env : Env) (s : BopomofoEditor) : BopomofoEditor :=
  let s1 := log { s with m_buffer := [] } Call.pinyin_get_sentence
  match env.pinyin_get_sentence with
  | some tmp =>
    if env.m_props.modeSimp then { s1 with m_buffer := s1.m_buffer ++ tmp }
    else { s1 with m_buffer := s1.m_buffer ++ env.simpToTrad tmp }
  | none => s1

/-- Lines 294-299 of `commit`: train, remember, hand over the text, reset. -/
def commitFinish (env : Env) (s : BopomofoEditor) : BopomofoEditor :=
  let s1 := log s Call.pinyin_train
  let s2 := if env.m_config.rememberEveryInput then log s1 Call.rememberUserInput else s1
  let s3 := log s2 Call.modified
  reset (PhoneticEditor_commit s3 s3.m_buffer)

/-- `BopomofoEditor::commit`, lines 256-300.  `m_text.c_str () + m_pinyin_len`
with `m_pinyin_len` past the end is a read outside the string: `none`. -/
def commit (env : Env) (s : BopomofoEditor) : Option BopomofoEditor :=
  if s.m_text.isEmpty then some s
  else
    let s1 := commitSentence env s
    if s1.m_pinyin_len > s1.m_text.length then none
    else
      match commitRest env (c_str (s1.m_text.drop s1.m_pinyin_len)) s1 with
      | none => none
      | some s2 => some (commitFinish env s2)

/-- `BopomofoEditor::updatePreeditText`, lines 302-337.  Lines 311-320 are the
same statements as lines 262-274 of `commit`, hence `commitSentence`.  The
rest text `m_text.c_str () + m_pinyin_len` is appended as a C string; a
recognised length past the end is a read outside the string, and a false
answer of `pinyin_get_character_offset` fails the `g_assert`: both `none`. -/
def updatePreeditText (env : Env) (s : BopomofoEditor) : Option BopomofoEditor :=
  if s.m_text.isEmpty then some (log s Call.hidePreeditText)
  else
    let s1 := commitSentence env s
    if s1.m_pinyin_len > s1.m_text.length then none
    else
      let s2 := { s1 with m_buffer := s1.m_buffer ++ c_str (s1.m_text.drop s1.m_pinyin_len) }
      let cursor := env.getPinyinCursor s2
      let s3 := log s2 (Call.pinyin_get_character_offset env.pinyin_get_sentence cursor)
      match env.pinyin_get_character_offset env.pinyin_get_sentence cursor with
      | none => none
      | some offset =>
        some (log s3 (Call.Editor_updatePreeditText s3.m_buffer
          [{ type := IBUS_ATTR_TYPE_UNDERLINE, value := IBUS_ATTR_UNDERLINE_SINGLE,
             start_index := 0, end_index := -1 }] offset true))

/-! ## The commit and preedit texts in the words of the spec -/

/-- The spec's `conv` applied to the backend's sentence: the empty text when the
backend gives none, the sentence itself in simplified mode, its
simplified-to-traditional conversion otherwise. -/
def convSentence (env : Env) : List Nat :=
  match env.pinyin_get_sentence with
  | none => []
  | some sentence => if env.m_props.modeSimp then sentence else env.simpToTrad sentence

/-- The spec's `render (c)`: the backend's single canonical symbol when `c` is a
valid phonetic symbol, else the full-width form when full-width mode is on,
else `c` itself. -/
def render (env : Env) (c : Nat) : List Nat :=
  match env.pinyin_in_chewing_keyboard c with
  | some symbols => symbols.headD []
  | none => if env.m_props.modeFull then env.toFull c else [c]

/-- The spec's commit text for a rest of raw characters. -/
def commitText (env : Env) (rest : List Nat) : List Nat :=
  convSentence env ++ (rest.map (render env)).flatten

/-- The state in which `updatePreeditText` reads the cursor (line 331):
`m_buffer` holds the text to show, the sentence has been asked for. -/
def preeditState (env : Env) (s : BopomofoEditor) : BopomofoEditor :=
  { s with m_buffer := convSentence env ++ c_str (s.m_text.drop s.m_pinyin_len),
           calls := s.calls ++ [Call.pinyin_get_sentence] }

/-! ## Runs of calls, reachable states, sample inputs -/

/-- A run of `insert` calls, one per element from left to right; the results are
discarded, as a caller that keeps typing does. -/
def insertAll (env : Env) : BopomofoEditor → List Nat → Option BopomofoEditor
  | s, [] => some s
  | s, ch :: chs =>
    match insert env s ch with
    | none => none
    | some (_, s1) => insertAll env s1 chs

/-- The states an editor can be in: the constructed one, and every state one of
the public member functions returns from a reachable state. -/
inductive Reachable (env : Env) : BopomofoEditor → Prop where
  | construct : Reachable env construct
  | processKeyEvent (s s1 : BopomofoEditor) (keyval keycode modifiers : Nat) (r : Bool) :
      Reachable env s → processKeyEvent env s keyval keycode modifiers = some (r, s1) →
      Reachable env s1
  | insert (s s1 : BopomofoEditor) (ch : Nat) (r : Bool) :
      Reachable env s → insert env s ch = some (r, s1) → Reachable env s1
  | commit (s s1 : BopomofoEditor) :
      Reachable env s → commit env s = some s1 → Reachable env s1
  | reset (s : BopomofoEditor) : Reachable env s → Reachable env (reset s)

/-- A sample backend answer: digits and lower-case letters are phonetic symbols
with one canonical symbol each (the key itself stands for its symbol); so is
the space key, as in the standard layout where it is the first tone. -/
def sampleKeyboard (key : Nat) : Option (List (List Nat)) :=
  if key = 0x20 ∨ (0x30 ≤ key ∧ key ≤ 0x39) ∨ (0x61 ≤ key ∧ key ≤ 0x7a) then some [[key]]
  else none

/-- A sample environment for evaluating the functions on concrete inputs:
`MAX_PINYIN_LEN` 64, every option on, the first select-key ordering, a backend
that recognises the whole text, base-class handlers that decline every key. -/
def sampleEnv : Env :=
  { MAX_PINYIN_LEN := 64,
    m_config := { guideKey := true, auxiliarySelectKeyKP := true,
                  auxiliarySelectKeyF := true, selectKeys := 0,
                  rememberEveryInput := true },
    m_props := { modeSimp := true, modeFull := false },
    pinyin_in_chewing_keyboard := sampleKeyboard,
    pinyin_parse_more_chewings := fun text => text.length,
    pinyin_get_sentence := some [0xe4, 0xbd, 0xa0],
    simpToTrad := fun text => text,
    toFull := fun c => [c],
    processSpace := fun s _ _ _ => some (false, s),
    processFunctionKey := fun s _ _ _ => some (false, s),
    getPinyinCursor := fun s => s.m_cursor,
    pinyin_get_character_offset := fun _ cursor => some cursor }

/-- A sample state: the text `su3` typed, cursor at the end, composing. -/
def sampleState : BopomofoEditor :=
  { m_text := [0x73, 0x75, 0x33], m_cursor := 3, m_pinyin_len := 3,
    m_select_mode := false, m_buffer := [], calls := [] }

/-- A sample state whose text has `MAX_PINYIN_LEN` (64) characters. -/
def fullState : BopomofoEditor :=
  { m_text := List.replicate 64 0x61, m_cursor := 64, m_pinyin_len := 64,
    m_select_mode := false, m_buffer := [], calls := [] }

/-- A sample state in mode Selecting: the text `su3`, cursor at the end. -/
def selectingState : BopomofoEditor := { sampleState with m_select_mode := true }

/-- A sample state at capacity in mode Selecting. -/
def fullSelectingState : BopomofoEditor := { fullState with m_select_mode := true }

/-- A sample backend for a layout in which one key carries two symbols: the key
`j` is valid and the backend fills in two symbols for it (U+3110 and U+3113 in
UTF-8); it recognises no prefix of the text. -/
def twoSymbolEnv : Env :=
  { sampleEnv with
    pinyin_in_chewing_keyboard := fun key =>
      if key = 0x6a then some [[0xe3, 0x84, 0x90], [0xe3, 0x84, 0x93]] else none,
    pinyin_parse_more_chewings := fun _ => 0 }

/-- A sample state with one unrecognised character: the text `j`. -/
def pendingState : BopomofoEditor :=
  { m_text := [0x6a], m_cursor := 1, m_pinyin_len := 0,
    m_select_mode := false, m_buffer := [], calls := [] }

/-- A sample state that breaks the data invariant: recognised length 2 on a
text of one character. -/
def overlongState : BopomofoEditor := { pendingState with m_pinyin_len := 2 }

/-- A sample backend whose offset translation fails: the answer of
`pinyin_get_character_offset` is false for every sentence and cursor. -/
def failingOffsetEnv : Env :=
  { sampleEnv with pinyin_get_character_offset := fun _ _ => none }

/-! ## Field lemmas -/

@[simp] theorem log_m_text (s : BopomofoEditor) (c : Call) : (log s c).m_text = s.m_text := rfl
@[simp] theorem log_m_cursor (s : BopomofoEditor) (c : Call) :
    (log s c).m_cursor = s.m_cursor := rfl
@[simp] theorem log_m_pinyin_len (s : BopomofoEditor) (c : Call) :
    (log s c).m_pinyin_len = s.m_pinyin_len := rfl
@[simp] theorem log_m_select_mode (s : BopomofoEditor) (c : Call) :
    (log s c).m_select_mode = s.m_select_mode := rfl
@[simp] theorem log_m_buffer (s : BopomofoEditor) (c : Call) :
    (log s c).m_buffer = s.m_buffer := rfl
@[simp] theorem log_calls (s : BopomofoEditor) (c : Call) :
    (log s c).calls = s.calls ++ [c] := rfl

@[simp] theorem updatePinyin_m_text (env : Env) (s : BopomofoEditor) :
    (updatePinyin env s).m_text = s.m_text := by
  unfold updatePinyin; split <;> rfl

@[simp] theorem updatePinyin_m_cursor (env : Env) (s : BopomofoEditor) :
    (updatePinyin env s).m_cursor = s.m_cursor := by
  unfold updatePinyin; split <;> rfl

@[simp] theorem updatePinyin_m_select_mode (env : Env) (s : BopomofoEditor) :
    (updatePinyin env s).m_select_mode = s.m_select_mode := by
  unfold updatePinyin; split <;> rfl

theorem updatePinyin_m_pinyin_len (env : Env) (s : BopomofoEditor) :
    (updatePinyin env s).m_pinyin_len =
      if s.m_text.isEmpty then 0 else env.pinyin_parse_more_chewings (c_str s.m_text) := by
  unfold updatePinyin; split <;> rfl

theorem c_str_length_le (text : List Nat) : (c_str text).length ≤ text.length := by
  unfold c_str
  induction text with
  | nil => simp
  | cons c p ih =>
    simp only [List.takeWhile_cons]
    split
    · simpa using ih
    · simp

/-- What `insert` does below capacity with the cursor inside the text. -/
theorem insert_below (env : Env) (s : BopomofoEditor) (ch : Nat)
    (hc : s.m_cursor ≤ s.m_text.length) (hl : s.m_text.length < env.MAX_PINYIN_LEN) :
    insert env s ch = some (true, update (updatePinyin env { s with
      m_text := s.m_text.take s.m_cursor ++ gchar ch :: s.m_text.drop s.m_cursor,
      m_cursor := s.m_cursor + 1 })) := by
  unfold insert
  rw [if_neg (by omega), if_neg (by omega)]

/-- What `insert` does at capacity. -/
theorem insert_full (env : Env) (s : BopomofoEditor) (ch : Nat)
    (hl : env.MAX_PINYIN_LEN ≤ s.m_text.length) : insert env s ch = some (true, s) := by
  unfold insert
  rw [if_pos hl]

theorem insert_length (l : List Nat) (n c : Nat) (h : n ≤ l.length) :
    (l.take n ++ c :: l.drop n).length = l.length + 1 := by
  simp [List.length_take, List.length_drop]; omega

/-- Every `insert` keeps the text within capacity and the cursor within the text. -/
theorem insert_preserves (env : Env) (s : BopomofoEditor) (ch : Nat)
    (hc : s.m_cursor ≤ s.m_text.length) (hl : s.m_text.length ≤ env.MAX_PINYIN_LEN) :
    ∃ s1, insert env s ch = some (true, s1) ∧
      s1.m_text.length = min (s.m_text.length + 1) env.MAX_PINYIN_LEN ∧
      s1.m_cursor ≤ s1.m_text.length := by
  by_cases hfull : env.MAX_PINYIN_LEN ≤ s.m_text.length
  · refine ⟨s, insert_full env s ch hfull, ?_, hc⟩
    omega
  · refine ⟨_, insert_below env s ch hc (by omega), ?_, ?_⟩
    · simp only [update, log_m_text, updatePinyin_m_text]
      rw [insert_length _ _ _ hc]; omega
    · simp only [update, log_m_text, updatePinyin_m_text, log_m_cursor, updatePinyin_m_cursor]
      rw [insert_length _ _ _ hc]; omega

/-- A run of insertions never stops abnormally from a well-formed state, and the
text grows by one per insertion until it reaches capacity. -/
theorem insertAll_length (env : Env) (chs : List Nat) :
    ∀ s : BopomofoEditor, s.m_cursor ≤ s.m_text.length →
      s.m_text.length ≤ env.MAX_PINYIN_LEN →
      ∃ s1, insertAll env s chs = some s1 ∧
        s1.m_text.length = min (s.m_text.length + chs.length) env.MAX_PINYIN_LEN ∧
        s1.m_cursor ≤ s1.m_text.length := by
  induction chs with
  | nil =>
    intro s hc hl
    exact ⟨s, rfl, by simp; omega, hc⟩
  | cons ch chs ih =>
    intro s hc hl
    obtain ⟨s1, h1, hlen, hcur⟩ := insert_preserves env s ch hc hl
    obtain ⟨s2, h2, hlen2, hcur2⟩ := ih s1 hcur (by omega)
    refine ⟨s2, ?_, ?_, hcur2⟩
    · simp only [insertAll, h1]; exact h2
    · rw [hlen2, hlen]; simp only [List.length_cons]; omega

/-! ## The select-key scan -/

theorem scanSelectKeys_not_mem (keyval : Nat) (keys : List Nat) :
    ∀ (i : Nat) (pos : Option Nat), keyval ∉ keys →
      scanSelectKeys keyval keys i pos = pos := by
  induction keys with
  | nil => intro i pos _; rfl
  | cons c p ih =>
    intro i pos h
    have hc : ¬ c = keyval := fun e => h (by simp [e])
    have hp : keyval ∉ p := fun e => h (by simp [e])
    simp only [scanSelectKeys, if_neg hc]
    exact ih _ _ hp

/-- On an ordering without repeated characters the scan ends at the position of
the key. -/
theorem scanSelectKeys_nodup (keyval : Nat) (keys : List Nat) :
    ∀ (j i : Nat) (pos : Option Nat), keys.Nodup → keys[j]? = some keyval →
      scanSelectKeys keyval keys i pos = some (i + j) := by
  induction keys with
  | nil => intro j i pos _ h; simp at h
  | cons c p ih =>
    intro j i pos hnd h
    rw [List.nodup_cons] at hnd
    cases j with
    | zero =>
      simp only [List.getElem?_cons_zero, Option.some.injEq] at h
      subst h
      simp only [scanSelectKeys, if_true]
      exact scanSelectKeys_not_mem c p _ _ hnd.1
    | succ j =>
      simp only [List.getElem?_cons_succ] at h
      have hmem : keyval ∈ p := List.getElem?_mem h
      have hc : ¬ c = keyval := fun e => hnd.1 (e ▸ hmem)
      simp only [scanSelectKeys, if_neg hc]
      rw [ih j (i + 1) pos hnd.2 h]
      congr 1; omega

/-- Every ordering of the table has ten characters, no two of them equal. -/
theorem bopomofo_select_keys_nodup :
    ∀ keys ∈ bopomofo_select_keys, keys.Nodup ∧ keys.length = 10 := by
  decide

/-! ## The auxiliary select keys -/

theorem auxiliarySelectIndex_eq_none (env : Env) (keyval : Nat) :
    auxiliarySelectIndex env keyval = none ↔
      ¬ ((IBUS_KP_0 ≤ keyval ∧ keyval ≤ IBUS_KP_9 ∧ env.m_config.auxiliarySelectKeyKP = true) ∨
         (IBUS_F1 ≤ keyval ∧ keyval ≤ IBUS_F10 ∧ env.m_config.auxiliarySelectKeyF = true)) := by
  unfold auxiliarySelectIndex
  simp only [IBUS_KP_0, IBUS_KP_1, IBUS_KP_9, IBUS_F1, IBUS_F10]
  cases env.m_config.auxiliarySelectKeyKP <;> cases env.m_config.auxiliarySelectKeyF <;>
    split_ifs <;> simp_all <;> omega

theorem auxiliarySelectIndex_eq_some (env : Env) (keyval i : Nat)
    (h : auxiliarySelectIndex env keyval = some i) :
    i ≤ 9 ∧ (keyval = IBUS_KP_0 → i = 9) ∧
      (∀ k, 1 ≤ k → k ≤ 9 → keyval = IBUS_KP_0 + k → i = k - 1) ∧
      (∀ k, 1 ≤ k → k ≤ 10 → keyval + 1 = IBUS_F1 + k → i = k - 1) := by
  unfold auxiliarySelectIndex at h
  simp only [IBUS_KP_0, IBUS_KP_1, IBUS_KP_9, IBUS_F1, IBUS_F10] at h ⊢
  split_ifs at h <;> simp at h <;> refine ⟨?_, ?_, ?_, ?_⟩ <;> intros <;> omega

/-! ## The dispatcher's stages -/

/-- The modifier filter sees the same bits before and after `processKeyEvent`
has masked the modifiers. -/
theorem cmshm_filter_mask (modifiers : Nat) :
    cmshm_filter (modifiers &&& KEY_EVENT_MASK) = cmshm_filter modifiers := by
  unfold cmshm_filter
  rw [Nat.land_assoc]
  congr 1

theorem processGuideKey_selecting (env : Env) (s : BopomofoEditor)
    (keyval keycode modifiers : Nat) (h : s.m_select_mode = true) :
    processGuideKey env s keyval keycode modifiers = (false, s) := by
  unfold processGuideKey
  split_ifs <;> simp_all

theorem isEmpty_eq_false {text : List Nat} (h : text ≠ []) : text.isEmpty = false := by
  cases text with
  | nil => exact absurd rfl h
  | cons a l => rfl

/-- A key that is not in the active ordering is not a select key. -/
theorem processSelectKey_not_mem (env : Env) (s : BopomofoEditor)
    (keyval keycode modifiers : Nat)
    (h : s.m_text ≠ [] → ∃ keys, bopomofo_select_keys[env.m_config.selectKeys]? = some keys ∧
      keyval ∉ keys) :
    processSelectKey env s keyval keycode modifiers = some (false, s) := by
  unfold processSelectKey
  split_ifs with h1 h2
  · rfl
  · rfl
  · have hne : s.m_text ≠ [] := by
      intro e; rw [e] at h1; simp at h1
    obtain ⟨keys, hkeys, hmem⟩ := h hne
    simp [hkeys, scanSelectKeys_not_mem keyval keys 0 none hmem]

theorem processAuxiliarySelectKey_none (env : Env) (s : BopomofoEditor)
    (keyval keycode modifiers : Nat) (h : auxiliarySelectIndex env keyval = none) :
    processAuxiliarySelectKey env s keyval keycode modifiers = (false, s) := by
  unfold processAuxiliarySelectKey
  split_ifs
  · rfl
  · rw [h]

/-! ## The commit loop -/

@[simp] theorem commitSentence_m_text (env : Env) (s : BopomofoEditor) :
    (commitSentence env s).m_text = s.m_text := by
  unfold commitSentence
  split
  · split <;> rfl
  · rfl

@[simp] theorem commitSentence_m_pinyin_len (env : Env) (s : BopomofoEditor) :
    (commitSentence env s).m_pinyin_len = s.m_pinyin_len := by
  unfold commitSentence
  split
  · split <;> rfl
  · rfl

/-- The loop ends normally when every valid answer carries one symbol. -/
theorem commitRest_isSome (env : Env) (p : List Nat) :
    ∀ s : BopomofoEditor,
      (∀ c ∈ p, ∀ symbols, env.pinyin_in_chewing_keyboard c = some symbols →
        symbols.length = 1) →
      ∃ s1, commitRest env p s = some s1 := by
  induction p with
  | nil => intro s _; exact ⟨s, rfl⟩
  | cons c p ih =>
    intro s h
    have hp : ∀ d ∈ p, ∀ symbols, env.pinyin_in_chewing_keyboard d = some symbols →
        symbols.length = 1 := fun d hd => h d (List.mem_cons_of_mem c hd)
    unfold commitRest
    cases hk : env.pinyin_in_chewing_keyboard c with
    | none =>
      simp only []
      split_ifs
      · exact ih _ hp
      · exact ih _ hp
    | some symbols =>
      have h1 := h c (List.mem_cons_self c p) symbols hk
      match symbols, h1 with
      | [symbol], _ => exact ih _ hp

theorem commitFinish_fields (env : Env) (s : BopomofoEditor) :
    (commitFinish env s).m_text = [] ∧ (commitFinish env s).m_select_mode = false ∧
      (commitFinish env s).m_cursor = 0 ∧ (commitFinish env s).m_pinyin_len = 0 := by
  simp [commitFinish, reset, PhoneticEditor_reset]

/-! ## The texts commit and updatePreeditText build -/

theorem commitSentence_eq (env : Env) (s : BopomofoEditor) :
    commitSentence env s =
      { s with m_buffer := convSentence env,
               calls := s.calls ++ [Call.pinyin_get_sentence] } := by
  unfold commitSentence convSentence
  cases env.pinyin_get_sentence with
  | none => rfl
  | some sentence =>
    simp only [log]
    split_ifs <;> simp

/-- What the loop of commit leaves behind when it ends normally: every
character rendered and appended to `m_buffer`, one validity query logged per
character, nothing else touched. -/
theorem commitRest_eq (env : Env) (p : List Nat) :
    ∀ s s1 : BopomofoEditor, commitRest env p s = some s1 →
      s1 = { s with m_buffer := s.m_buffer ++ (p.map (render env)).flatten,
                    calls := s.calls ++ p.map Call.pinyin_in_chewing_keyboard } := by
  induction p with
  | nil =>
    intro s s1 h
    simp only [commitRest, Option.some.injEq] at h
    subst h
    simp
  | cons c p ih =>
    intro s s1 h
    unfold commitRest at h
    cases hk : env.pinyin_in_chewing_keyboard c with
    | none =>
      rw [hk] at h
      simp only [] at h
      split_ifs at h with hfull
      · rw [ih _ _ h]
        simp [render, hk, hfull, log]
      · rw [ih _ _ h]
        simp [render, hk, hfull, log]
    | some symbols =>
      rw [hk] at h
      match symbols, hk, h with
      | [symbol], hk, h =>
        simp only [] at h
        rw [ih _ _ h]
        simp [render, hk, log]
      | [], _, h => simp at h
      | _ :: _ :: _, _, h => simp at h

theorem c_str_of_not_mem (text : List Nat) (h : 0 ∉ text) : c_str text = text := by
  unfold c_str
  rw [List.takeWhile_eq_self_iff]
  intro c hc
  have : c ≠ 0 := fun e => h (e ▸ hc)
  simpa using this

theorem c_str_drop_of_not_mem (text : List Nat) (n : Nat) (h : 0 ∉ text) :
    c_str (text.drop n) = text.drop n :=
  c_str_of_not_mem _ (fun hmem => h (List.mem_of_mem_drop hmem))

/-- The result of commit on a non-empty text, when it returns. -/
theorem commit_eq (env : Env) (s s1 : BopomofoEditor) (hne : s.m_text ≠ [])
    (h : commit env s = some s1) :
    s1 = commitFinish env { s with
      m_buffer := commitText env (c_str (s.m_text.drop s.m_pinyin_len)),
      calls := s.calls ++ [Call.pinyin_get_sentence] ++
        (c_str (s.m_text.drop s.m_pinyin_len)).map Call.pinyin_in_chewing_keyboard } := by
  unfold commit at h
  rw [isEmpty_eq_false hne] at h
  simp only [Bool.false_eq_true, if_false] at h
  split_ifs at h
  split at h
  · cases h
  · rename_i s2 h2
    simp only [Option.some.injEq] at h
    rw [← h, commitRest_eq env _ _ _ h2, commitSentence_eq]
    simp [commitText]

/-! ## Handlers that decline leave the state alone -/

theorem processGuideKey_false (env : Env) (s s1 : BopomofoEditor)
    (keyval keycode modifiers : Nat)
    (h : processGuideKey env s keyval keycode modifiers = (false, s1)) : s1 = s := by
  unfold processGuideKey at h
  split_ifs at h <;> simp_all

theorem processSelectKey_false (env : Env) (s s1 : BopomofoEditor)
    (keyval keycode modifiers : Nat)
    (h : processSelectKey env s keyval keycode modifiers = some (false, s1)) : s1 = s := by
  unfold processSelectKey at h
  split_ifs at h
  · simp_all
  · simp_all
  · split at h
    · cases h
    · split at h <;> simp_all

theorem processAuxiliarySelectKey_false (env : Env) (s s1 : BopomofoEditor)
    (keyval keycode modifiers : Nat)
    (h : processAuxiliarySelectKey env s keyval keycode modifiers = (false, s1)) :
    s1 = s := by
  unfold processAuxiliarySelectKey at h
  split_ifs at h
  · simp_all
  · split at h <;> simp_all

/-- The fallback switch ends in one call of a base-class handler with the
arguments it was given. -/
theorem processKeyEventFallback_delegate (env : Env) (s : BopomofoEditor)
    (keyval keycode modifiers : Nat) :
    ∃ s1,
      processKeyEventFallback env s keyval keycode modifiers =
          env.processSpace (log s1 (Call.processSpace keyval keycode modifiers))
            keyval keycode modifiers ∨
        processKeyEventFallback env s keyval keycode modifiers =
          env.processFunctionKey (log s1 (Call.processFunctionKey keyval keycode modifiers))
            keyval keycode modifiers := by
  unfold processKeyEventFallback
  split_ifs
  · exact ⟨_, Or.inl rfl⟩
  · exact ⟨_, Or.inr rfl⟩
  · exact ⟨_, Or.inr rfl⟩
  · exact ⟨_, Or.inr rfl⟩

/-! ## Key events with a non-trivial modifier -/

theorem processGuideKey_with_modifier (env : Env) (s : BopomofoEditor)
    (keyval keycode modifiers : Nat) (h : cmshm_filter modifiers ≠ 0) :
    processGuideKey env s keyval keycode modifiers = (false, s) := by
  unfold processGuideKey
  split_ifs <;> simp_all

theorem processAuxiliarySelectKey_with_modifier (env : Env) (s : BopomofoEditor)
    (keyval keycode modifiers : Nat) (h : cmshm_filter modifiers ≠ 0) :
    processAuxiliarySelectKey env s keyval keycode modifiers = (false, s) := by
  unfold processAuxiliarySelectKey
  rw [if_pos h]

/-- With an ordering in range processSelectKey either declines and leaves the
state alone or picks a candidate. -/
theorem processSelectKey_cases (env : Env) (s : BopomofoEditor)
    (keyval keycode modifiers : Nat) (h : env.m_config.selectKeys < 9) :
    processSelectKey env s keyval keycode modifiers = some (false, s) ∨
      ∃ i, processSelectKey env s keyval keycode modifiers =
        some (true, { s with
          m_select_mode := true,
          calls := s.calls ++ [Call.selectCandidateInPage i, Call.update] }) := by
  have hlen : env.m_config.selectKeys < bopomofo_select_keys.length := h
  unfold processSelectKey
  split_ifs
  · exact Or.inl rfl
  · exact Or.inl rfl
  · rw [List.getElem?_eq_getElem hlen]
    simp only []
    cases scanSelectKeys keyval bopomofo_select_keys[env.m_config.selectKeys] 0 none with
    | none => exact Or.inl rfl
    | some i => exact Or.inr ⟨i, by simp [update, selectCandidateInPage, log]⟩

/-! ## The claims -/

/-- C1 (the invariant fails on the code): with the guide key enabled, the space
key pressed on the freshly constructed editor is consumed by processGuideKey,
which sets m_select_mode to TRUE although m_text is empty; so a reachable state
has the selection flag set with an empty buffer. -/
theorem C1_guide_key_selects_on_empty_text :
    processKeyEvent sampleEnv construct IBUS_space 0 0 =
        some (true, { construct with m_select_mode := true, calls := [Call.update] }) ∧
      ∃ s, Reachable sampleEnv s ∧ s.m_select_mode = true ∧ s.m_text = [] := by
  have h : processKeyEvent sampleEnv construct IBUS_space 0 0 =
      some (true, { construct with m_select_mode := true, calls := [Call.update] }) := by
    decide
  exact ⟨h, _, Reachable.processKeyEvent _ _ _ _ _ _ Reachable.construct h, rfl, rfl⟩

/-- C2 (as stated, false): at capacity insert does not return the reject value;
on a text of MAX_PINYIN_LEN characters it returns TRUE. -/
theorem C2_counterexample :
    fullState.m_text.length = sampleEnv.MAX_PINYIN_LEN ∧
      insert sampleEnv fullState 0x61 = some (true, fullState) ∧
      ¬ ∃ s1, insert sampleEnv fullState 0x61 = some (false, s1) := by
  have h : insert sampleEnv fullState 0x61 = some (true, fullState) :=
    insert_full _ _ _ (by decide)
  refine ⟨by decide, h, ?_⟩
  rintro ⟨s1, h1⟩
  rw [h] at h1
  cases h1

/-- C2 (amended): for every state whose text length equals MAX_PINYIN_LEN and
every character, insert returns TRUE and leaves the whole state (text, length,
cursor) unchanged; in particular after MAX_PINYIN_LEN insertions into the fresh
editor the text has MAX_PINYIN_LEN characters and one more insert returns TRUE
and changes nothing. -/
theorem C2_insert_at_capacity (env : Env) (s : BopomofoEditor) (ch : Nat)
    (h : s.m_text.length = env.MAX_PINYIN_LEN) :
    insert env s ch = some (true, s) ∧
      ∀ chs : List Nat, chs.length = env.MAX_PINYIN_LEN →
        ∃ s1, insertAll env construct chs = some s1 ∧
          s1.m_text.length = env.MAX_PINYIN_LEN ∧ insert env s1 ch = some (true, s1) := by
  refine ⟨insert_full env s ch (by omega), ?_⟩
  intro chs hchs
  obtain ⟨s1, h1, hlen, _⟩ := insertAll_length env chs construct (by simp [construct])
    (by simp [construct])
  have hlen1 : s1.m_text.length = env.MAX_PINYIN_LEN := by
    rw [hlen, hchs]; simp [construct]
  exact ⟨s1, h1, hlen1, insert_full env s1 ch (by omega)⟩

/-- Witness of C2_insert_at_capacity: the sample text of 64 characters. -/
theorem C2_insert_at_capacity_witness :
    fullState.m_text.length = sampleEnv.MAX_PINYIN_LEN ∧
      insert sampleEnv fullState 0x62 = some (true, fullState) :=
  ⟨by decide, (C2_insert_at_capacity sampleEnv fullState 0x62 (by decide)).1⟩

/-- C3: below capacity and with the cursor inside the text, insert returns TRUE,
the new text is the old one with the character (the low byte of the argument,
the argument itself when it is a character) put in at the old cursor, and the
cursor is one further; every insert keeps the length within MAX_PINYIN_LEN and
the cursor within the text; n insertions into the fresh editor give a text of
min (n, MAX_PINYIN_LEN) characters. -/
theorem C3_insert_below_capacity (env : Env) (s : BopomofoEditor) (ch : Nat)
    (hc : s.m_cursor ≤ s.m_text.length) (hl : s.m_text.length < env.MAX_PINYIN_LEN) :
    (∃ s1, insert env s ch = some (true, s1) ∧
        s1.m_text = s.m_text.take s.m_cursor ++ [gchar ch] ++ s.m_text.drop s.m_cursor ∧
        (ch < 256 →
          s1.m_text = s.m_text.take s.m_cursor ++ [ch] ++ s.m_text.drop s.m_cursor) ∧
        s1.m_cursor = s.m_cursor + 1 ∧
        s1.m_text.length = s.m_text.length + 1 ∧
        s1.m_text.length ≤ env.MAX_PINYIN_LEN ∧ s1.m_cursor ≤ s1.m_text.length) ∧
      (∀ (t : BopomofoEditor) (c : Nat), t.m_cursor ≤ t.m_text.length →
        t.m_text.length ≤ env.MAX_PINYIN_LEN →
        ∃ t1, insert env t c = some (true, t1) ∧
          t1.m_text.length ≤ env.MAX_PINYIN_LEN ∧ t1.m_cursor ≤ t1.m_text.length) ∧
      (∀ chs : List Nat, ∃ t, insertAll env construct chs = some t ∧
        t.m_text.length = min chs.length env.MAX_PINYIN_LEN) := by
  refine ⟨⟨_, insert_below env s ch hc hl, ?_, ?_, ?_, ?_, ?_, ?_⟩, ?_, ?_⟩
  · simp [update]
  · intro hch
    simp [update, gchar, Nat.mod_eq_of_lt hch]
  · simp [update]
  · simp only [update, log_m_text, updatePinyin_m_text]
    exact insert_length _ _ _ hc
  · simp only [update, log_m_text, updatePinyin_m_text]
    rw [insert_length _ _ _ hc]; omega
  · simp only [update, log_m_text, updatePinyin_m_text, log_m_cursor, updatePinyin_m_cursor]
    rw [insert_length _ _ _ hc]; omega
  · intro t c htc htl
    obtain ⟨t1, h1, hlen, hcur⟩ := insert_preserves env t c htc htl
    exact ⟨t1, h1, by omega, hcur⟩
  · intro chs
    obtain ⟨t, h1, hlen, _⟩ := insertAll_length env chs construct (by simp [construct])
      (by simp [construct])
    exact ⟨t, h1, by rw [hlen]; simp [construct]⟩

/-- Witness of C3_insert_below_capacity: a character typed after `su3`. -/
theorem C3_insert_below_capacity_witness :
    ∃ s1, insert sampleEnv sampleState 0x63 = some (true, s1) ∧
      s1.m_text = [0x73, 0x75, 0x33, 0x63] ∧ s1.m_cursor = 4 := by
  obtain ⟨⟨s1, h1, h2, _, h4, _⟩, _⟩ :=
    C3_insert_below_capacity sampleEnv sampleState 0x63 (by decide) (by decide)
  exact ⟨s1, h1, by rw [h2]; decide, by rw [h4]; rfl⟩

/-- C4: with an empty text processSelectKey returns FALSE for every key (so for
every key of the active ordering) and changes nothing, the mode and the call
log included; in mode Composing with a non-empty text and MOD1 (Alt) held, a
key that stands at position i of the active ordering is consumed, the mode
becomes Selecting and selectCandidateInPage is called with i. -/
theorem C4_processSelectKey (env : Env) (s : BopomofoEditor)
    (keyval keycode modifiers : Nat) :
    (s.m_text = [] → processSelectKey env s keyval keycode modifiers = some (false, s)) ∧
      (∀ (keys : List Nat) (i : Nat), s.m_select_mode = false → s.m_text ≠ [] →
        modifiers &&& IBUS_MOD1_MASK ≠ 0 →
        bopomofo_select_keys[env.m_config.selectKeys]? = some keys →
        keys[i]? = some keyval →
        processSelectKey env s keyval keycode modifiers =
          some (true, { s with
            m_select_mode := true,
            calls := s.calls ++ [Call.selectCandidateInPage i, Call.update] })) := by
  constructor
  · intro h
    simp [processSelectKey, h]
  · intro keys i hmode hne hmod hkeys hi
    have hnd : keys.Nodup :=
      (bopomofo_select_keys_nodup keys (List.getElem?_mem hkeys)).1
    have hscan := scanSelectKeys_nodup keyval keys i 0 none hnd hi
    rw [Nat.zero_add] at hscan
    have hemp : s.m_text.isEmpty = false := by
      cases h : s.m_text with
      | nil => exact absurd h hne
      | cons a l => rfl
    simp [processSelectKey, hemp, hmode, hmod, hkeys, hscan, update, selectCandidateInPage, log]

/-- Witness of C4_processSelectKey: Alt+3 on the text `su3` with the first
ordering picks the candidate at position 2. -/
theorem C4_processSelectKey_witness :
    processSelectKey sampleEnv sampleState 0x33 0 IBUS_MOD1_MASK =
      some (true, { sampleState with
        m_select_mode := true,
        calls := sampleState.calls ++ [Call.selectCandidateInPage 2, Call.update] }) :=
  (C4_processSelectKey sampleEnv sampleState 0x33 0 IBUS_MOD1_MASK).2
    (bytes "1234567890") 2 rfl (by decide) (by decide) rfl (by decide)

/-- C5 (as stated, false): with Alt (MOD1) held, which cmshm_filter counts as a
non-trivial modifier, the key 1 on the text `su3` in mode Composing is
accepted: the mode becomes Selecting and selectCandidateInPage (0) is called. -/
theorem C5_counterexample :
    cmshm_filter IBUS_MOD1_MASK ≠ 0 ∧
      processSelectKey sampleEnv sampleState 0x31 0 IBUS_MOD1_MASK =
        some (true, { sampleState with
          m_select_mode := true,
          calls := [Call.selectCandidateInPage 0, Call.update] }) := by
  decide

/-- C5 (amended): in mode Composing a key event whose modifier set does not
contain Alt (MOD1), whatever else it contains (control, meta, super, hyper,
caps-lock, shift), is not accepted by processSelectKey: it returns FALSE, and
the state is unchanged (same mode, no selectCandidateInPage call logged). -/
theorem C5_processSelectKey_without_alt (env : Env) (s : BopomofoEditor)
    (keyval keycode modifiers : Nat)
    (hmode : s.m_select_mode = false) (hmod : modifiers &&& IBUS_MOD1_MASK = 0) :
    processSelectKey env s keyval keycode modifiers = some (false, s) := by
  unfold processSelectKey
  split
  · rfl
  · simp [hmode, hmod]

/-- Witness of C5_processSelectKey_without_alt: Control+1 on the text `su3`. -/
theorem C5_processSelectKey_without_alt_witness :
    cmshm_filter IBUS_CONTROL_MASK ≠ 0 ∧
      processSelectKey sampleEnv sampleState 0x31 0 IBUS_CONTROL_MASK =
        some (false, sampleState) :=
  ⟨by decide,
    C5_processSelectKey_without_alt sampleEnv sampleState 0x31 0 IBUS_CONTROL_MASK rfl
      (by decide)⟩

/-- C6: processAuxiliarySelectKey returns TRUE exactly when cmshm_filter finds
no modifier and the key is KP_0..KP_9 with the keypad option on or F1..F10 with
the function-key option on; then the mode is Selecting and the one
selectCandidateInPage call has index 9 for KP_0, k-1 for KP_k and k-1 for Fk,
at most 9; otherwise it returns FALSE and the state is unchanged. -/
theorem C6_processAuxiliarySelectKey (env : Env) (s : BopomofoEditor)
    (keyval keycode modifiers : Nat) :
    ((processAuxiliarySelectKey env s keyval keycode modifiers).1 = true ↔
        cmshm_filter modifiers = 0 ∧
          ((IBUS_KP_0 ≤ keyval ∧ keyval ≤ IBUS_KP_9 ∧
              env.m_config.auxiliarySelectKeyKP = true) ∨
           (IBUS_F1 ≤ keyval ∧ keyval ≤ IBUS_F10 ∧
              env.m_config.auxiliarySelectKeyF = true))) ∧
      ((processAuxiliarySelectKey env s keyval keycode modifiers).1 = true →
        ∃ i, i ≤ 9 ∧
          processAuxiliarySelectKey env s keyval keycode modifiers =
            (true, { s with
              m_select_mode := true,
              calls := s.calls ++ [Call.selectCandidateInPage i, Call.update] }) ∧
          (keyval = IBUS_KP_0 → i = 9) ∧
          (∀ k, 1 ≤ k → k ≤ 9 → keyval = IBUS_KP_0 + k → i = k - 1) ∧
          (∀ k, 1 ≤ k → k ≤ 10 → keyval + 1 = IBUS_F1 + k → i = k - 1)) ∧
      ((processAuxiliarySelectKey env s keyval keycode modifiers).1 = false →
        processAuxiliarySelectKey env s keyval keycode modifiers = (false, s)) := by
  have hnone := auxiliarySelectIndex_eq_none env keyval
  unfold processAuxiliarySelectKey
  by_cases hm : cmshm_filter modifiers = 0
  · rw [if_neg (by simpa using hm)]
    cases hidx : auxiliarySelectIndex env keyval with
    | none =>
      rw [hidx] at hnone
      have hno := hnone.1 rfl
      exact ⟨by simp [hm, hno], by simp, by simp⟩
    | some i =>
      rw [hidx] at hnone
      have hyes : (IBUS_KP_0 ≤ keyval ∧ keyval ≤ IBUS_KP_9 ∧
            env.m_config.auxiliarySelectKeyKP = true) ∨
          (IBUS_F1 ≤ keyval ∧ keyval ≤ IBUS_F10 ∧
            env.m_config.auxiliarySelectKeyF = true) := by
        by_contra hcon
        exact absurd (hnone.2 hcon) (by simp)
      obtain ⟨h9, h0, hkp, hf⟩ := auxiliarySelectIndex_eq_some env keyval i hidx
      refine ⟨by simp [hm, hyes], ?_, by simp⟩
      intro _
      exact ⟨i, h9, by simp [update, selectCandidateInPage, log], h0, hkp, hf⟩
  · rw [if_pos hm]
    exact ⟨by simp [hm], by simp, by simp⟩

/-- Witness of C6_processAuxiliarySelectKey: F10 without modifiers picks the
candidate at position 9. -/
theorem C6_processAuxiliarySelectKey_witness :
    ∃ i, i ≤ 9 ∧
      processAuxiliarySelectKey sampleEnv sampleState IBUS_F10 0 0 =
        (true, { sampleState with
          m_select_mode := true,
          calls := sampleState.calls ++ [Call.selectCandidateInPage i, Call.update] }) ∧
      i = 10 - 1 := by
  obtain ⟨i, h9, heq, _, _, hf⟩ :=
    (C6_processAuxiliarySelectKey sampleEnv sampleState IBUS_F10 0 0).2.1 (by decide)
  exact ⟨i, h9, heq, hf 10 (by decide) (by decide) (by decide)⟩

/-- C7 (the code misses the check): on the freshly constructed editor, whose
text is empty, the key KP_1 without modifiers and with the keypad option on is
consumed by processAuxiliarySelectKey, the mode becomes Selecting and
selectCandidateInPage (0) is called; processKeyEvent hands that result on. -/
theorem C7_auxiliary_key_on_empty_text :
    construct.m_text = [] ∧
      processAuxiliarySelectKey sampleEnv construct IBUS_KP_1 0 0 =
        (true, { construct with
          m_select_mode := true,
          calls := [Call.selectCandidateInPage 0, Call.update] }) ∧
      processKeyEvent sampleEnv construct IBUS_KP_1 0 0 =
        some (true, { construct with
          m_select_mode := true,
          calls := [Call.selectCandidateInPage 0, Call.update] }) := by
  decide

/-- C8 (as stated, false): in mode Selecting with the text `su3`, the key 1,
which the backend recognises as a phonetic symbol, is taken by processSelectKey
as a candidate pick: the text is unchanged and the mode stays Selecting.  And
at capacity the recognised key b is consumed without being inserted. -/
theorem C8_counterexample :
    (sampleEnv.pinyin_in_chewing_keyboard 0x31).isSome = true ∧
      cmshm_filter 0 = 0 ∧
      processKeyEvent sampleEnv selectingState 0x31 0 0 =
        some (true, { selectingState with
          calls := [Call.selectCandidateInPage 0, Call.update] }) ∧
      (sampleEnv.pinyin_in_chewing_keyboard 0x62).isSome = true ∧
      processKeyEvent sampleEnv fullSelectingState 0x62 0 0 =
        some (true, { fullSelectingState with
          m_select_mode := false,
          calls := [Call.pinyin_in_chewing_keyboard 0x62] }) := by
  decide

/-- C8 (amended): in mode Selecting, below capacity and with the cursor inside
the text, a key that the backend recognises, that is not space, is pressed
without a non-trivial modifier, is not a character of the active select-key
ordering when the text is non-empty, and is not an enabled auxiliary select
key, is handled by processKeyEvent; afterwards the mode is Composing, the text
is the old one with the key's character put in at the old cursor, and the
cursor is one further. -/
theorem C8_symbol_key_leaves_selecting (env : Env) (s : BopomofoEditor)
    (keyval keycode modifiers : Nat)
    (hmode : s.m_select_mode = true)
    (hc : s.m_cursor ≤ s.m_text.length) (hl : s.m_text.length < env.MAX_PINYIN_LEN)
    (hvalid : (env.pinyin_in_chewing_keyboard keyval).isSome = true)
    (hspace : keyval ≠ IBUS_space)
    (hmod : cmshm_filter modifiers = 0)
    (hsel : s.m_text ≠ [] →
      ∃ keys, bopomofo_select_keys[env.m_config.selectKeys]? = some keys ∧ keyval ∉ keys)
    (haux : ¬ ((IBUS_KP_0 ≤ keyval ∧ keyval ≤ IBUS_KP_9 ∧
          env.m_config.auxiliarySelectKeyKP = true) ∨
        (IBUS_F1 ≤ keyval ∧ keyval ≤ IBUS_F10 ∧
          env.m_config.auxiliarySelectKeyF = true))) :
    ∃ s1, processKeyEvent env s keyval keycode modifiers = some (true, s1) ∧
      s1.m_select_mode = false ∧
      s1.m_text = s.m_text.take s.m_cursor ++ [gchar keyval] ++ s.m_text.drop s.m_cursor ∧
      s1.m_cursor = s.m_cursor + 1 := by
  have hg := processGuideKey_selecting env s keyval keycode (modifiers &&& KEY_EVENT_MASK) hmode
  have hs := processSelectKey_not_mem env s keyval keycode (modifiers &&& KEY_EVENT_MASK) hsel
  have ha := processAuxiliarySelectKey_none env s keyval keycode (modifiers &&& KEY_EVENT_MASK)
    ((auxiliarySelectIndex_eq_none env keyval).2 haux)
  have hm : cmshm_filter (modifiers &&& KEY_EVENT_MASK) = 0 := by
    rw [cmshm_filter_mask]; exact hmod
  obtain ⟨symbols, hsym⟩ := Option.isSome_iff_exists.1 hvalid
  have hb : processBopomofo env s keyval keycode (modifiers &&& KEY_EVENT_MASK) =
      insert env { log s (Call.pinyin_in_chewing_keyboard keyval) with m_select_mode := false }
        keyval := by
    unfold processBopomofo
    rw [if_neg (by simpa using hm)]
    simp only [hsym, if_neg hspace]
  have hi : ∃ s1, insert env
      { log s (Call.pinyin_in_chewing_keyboard keyval) with m_select_mode := false }
        keyval = some (true, s1) ∧
      s1.m_select_mode = false ∧
      s1.m_text = s.m_text.take s.m_cursor ++ [gchar keyval] ++ s.m_text.drop s.m_cursor ∧
      s1.m_cursor = s.m_cursor + 1 :=
    ⟨_, insert_below env _ keyval (by simpa using hc) (by simpa using hl),
      by simp [update], by simp [update], by simp [update]⟩
  obtain ⟨s1, h1, h2, h3, h4⟩ := hi
  refine ⟨s1, ?_, h2, h3, h4⟩
  unfold processKeyEvent
  simp only [hg, hs, ha, hb, h1]

/-- Witness of C8_symbol_key_leaves_selecting: the key b in mode Selecting on
the text `su3` is appended and the mode is Composing again. -/
theorem C8_symbol_key_leaves_selecting_witness :
    ∃ s1, processKeyEvent sampleEnv selectingState 0x62 0 0 = some (true, s1) ∧
      s1.m_select_mode = false ∧ s1.m_text = [0x73, 0x75, 0x33, 0x62] ∧ s1.m_cursor = 4 := by
  obtain ⟨s1, h1, h2, h3, h4⟩ :=
    C8_symbol_key_leaves_selecting sampleEnv selectingState 0x62 0 0 rfl (by decide)
      (by decide) (by decide) (by decide) (by decide)
      (fun _ => ⟨bytes "1234567890", rfl, by decide⟩) (by decide)
  exact ⟨s1, h1, h2, by rw [h3]; decide, by rw [h4]; rfl⟩

/-- C9: when the backend never reports a recognised length above the length of
the text it is given, updatePinyin leaves m_pinyin_len within the text and sets
it to 0 on an empty text; an insert that changes the text leaves m_pinyin_len
equal to the backend's result on the new text (as c_str hands it over), within
the new text. -/
theorem C9_pinyin_len_within_text (env : Env)
    (hparse : ∀ text, env.pinyin_parse_more_chewings text ≤ text.length) :
    (∀ s, (updatePinyin env s).m_pinyin_len ≤ (updatePinyin env s).m_text.length) ∧
      (∀ s, s.m_text = [] → (updatePinyin env s).m_pinyin_len = 0) ∧
      (∀ s ch, s.m_cursor ≤ s.m_text.length → s.m_text.length < env.MAX_PINYIN_LEN →
        ∃ s1, insert env s ch = some (true, s1) ∧
          s1.m_pinyin_len = env.pinyin_parse_more_chewings (c_str s1.m_text) ∧
          s1.m_pinyin_len ≤ s1.m_text.length) ∧
      (∀ s ch r s1, insert env s ch = some (r, s1) → s1.m_text ≠ s.m_text →
        s1.m_pinyin_len = env.pinyin_parse_more_chewings (c_str s1.m_text) ∧
          s1.m_pinyin_len ≤ s1.m_text.length) := by
  have hup : ∀ s, (updatePinyin env s).m_pinyin_len ≤ (updatePinyin env s).m_text.length := by
    intro s
    rw [updatePinyin_m_pinyin_len, updatePinyin_m_text]
    split_ifs
    · exact Nat.zero_le _
    · exact le_trans (hparse _) (c_str_length_le _)
  have hins : ∀ s ch, s.m_cursor ≤ s.m_text.length → s.m_text.length < env.MAX_PINYIN_LEN →
      ∃ s1, insert env s ch = some (true, s1) ∧
        s1.m_pinyin_len = env.pinyin_parse_more_chewings (c_str s1.m_text) ∧
        s1.m_pinyin_len ≤ s1.m_text.length := by
    intro s ch hc hl
    refine ⟨_, insert_below env s ch hc hl, ?_, ?_⟩
    · simp only [update, log_m_pinyin_len, log_m_text, updatePinyin_m_text]
      rw [updatePinyin_m_pinyin_len, if_neg (by simp)]
    · simp only [update, log_m_pinyin_len, log_m_text]
      exact hup _
  refine ⟨hup, ?_, hins, ?_⟩
  · intro s h
    rw [updatePinyin_m_pinyin_len, h]; rfl
  · intro s ch r s1 h hne
    by_cases hfull : env.MAX_PINYIN_LEN ≤ s.m_text.length
    · rw [insert_full env s ch hfull] at h
      simp only [Option.some.injEq, Prod.mk.injEq] at h
      exact absurd (by rw [h.2]) hne
    · by_cases hc : s.m_cursor ≤ s.m_text.length
      · obtain ⟨s2, h2, h3, h4⟩ := hins s ch hc (by omega)
        rw [h2] at h
        simp only [Option.some.injEq, Prod.mk.injEq] at h
        rw [← h.2]
        exact ⟨h3, h4⟩
      · unfold insert at h
        rw [if_neg hfull, if_pos (by omega)] at h
        cases h

/-- Witness of C9_pinyin_len_within_text: the sample backend recognises the
whole text, and a character typed after `su3` gives recognised length 4. -/
theorem C9_pinyin_len_within_text_witness :
    ∃ s1, insert sampleEnv sampleState 0x63 = some (true, s1) ∧
      s1.m_pinyin_len = sampleEnv.pinyin_parse_more_chewings (c_str s1.m_text) ∧
      s1.m_pinyin_len ≤ s1.m_text.length :=
  (C9_pinyin_len_within_text sampleEnv (fun _ => Nat.le_refl _)).2.2.1 sampleState 0x63
    (by decide) (by decide)

/-- C10 (as stated, false): when the backend answers the validity query for the
unrecognised character `j` with two symbols, the assertion in the loop of
commit fails and commit does not return; and with a recognised length past the
end of the text the loop starts outside the text. -/
theorem C10_counterexample :
    pendingState.m_text ≠ [] ∧ commit twoSymbolEnv pendingState = none ∧
      overlongState.m_text ≠ [] ∧ commit sampleEnv overlongState = none := by
  decide

/-- C10 (amended): for every state with a non-empty text and m_pinyin_len
within the text, any sentence or none, and backend answers to the validity
query that carry exactly one symbol whenever they are positive on a character
of the unrecognised rest, commit returns and leaves the text empty, the mode
Composing, the cursor 0 and the recognised length 0; and whenever commit
returns on a non-empty text, the text is empty and the mode Composing. -/
theorem C10_commit_resets (env : Env) (s : BopomofoEditor)
    (hne : s.m_text ≠ [])
    (hlen : s.m_pinyin_len ≤ s.m_text.length)
    (hsym : ∀ c ∈ c_str (s.m_text.drop s.m_pinyin_len), ∀ symbols,
      env.pinyin_in_chewing_keyboard c = some symbols → symbols.length = 1) :
    (∃ s1, commit env s = some s1 ∧ s1.m_text = [] ∧ s1.m_select_mode = false ∧
        s1.m_cursor = 0 ∧ s1.m_pinyin_len = 0) ∧
      (∀ (t t1 : BopomofoEditor), t.m_text ≠ [] → commit env t = some t1 →
        t1.m_text = [] ∧ t1.m_select_mode = false) := by
  constructor
  · obtain ⟨s2, h2⟩ := commitRest_isSome env (c_str (s.m_text.drop s.m_pinyin_len))
      (commitSentence env s) hsym
    refine ⟨commitFinish env s2, ?_, commitFinish_fields env s2⟩
    unfold commit
    rw [isEmpty_eq_false hne]
    simp only [Bool.false_eq_true, if_false, commitSentence_m_text,
      commitSentence_m_pinyin_len]
    rw [if_neg (by omega), h2]
  · intro t t1 htne h
    unfold commit at h
    rw [isEmpty_eq_false htne] at h
    simp only [Bool.false_eq_true, if_false] at h
    split_ifs at h
    split at h
    · cases h
    · simp only [Option.some.injEq] at h
      rw [← h]
      exact ⟨(commitFinish_fields env _).1, (commitFinish_fields env _).2.1⟩

/-- Witness of C10_commit_resets: committing the text `su3`, all of it
recognised, with the sample backend. -/
theorem C10_commit_resets_witness :
    ∃ s1, commit sampleEnv sampleState = some s1 ∧ s1.m_text = [] ∧
      s1.m_select_mode = false ∧ s1.m_cursor = 0 ∧ s1.m_pinyin_len = 0 :=
  (C10_commit_resets sampleEnv sampleState (by decide) (by decide) (by decide)).1

/-- C11: on an empty text commit returns at once with the state it was given:
mode, text, cursor and recognised length are unchanged, and the call log is
unchanged, so no text goes to the host and the backend is neither trained nor
asked to remember. -/
theorem C11_commit_empty_is_noop (env : Env) (s : BopomofoEditor) (h : s.m_text = []) :
    commit env s = some s := by
  simp [commit, h]

/-- Witness of C11_commit_empty_is_noop: commit on the fresh editor. -/
theorem C11_commit_empty_is_noop_witness : commit sampleEnv construct = some construct :=
  C11_commit_empty_is_noop sampleEnv construct rfl

/-- C12: on a non-empty text (recognised length within the text, one symbol
per positive validity answer) commit returns, and the text it hands to
PhoneticEditor::commit is conv (sentence) followed by render (c) for each
character c of the text from m_pinyin_len onward (as the C string shows them:
up to a NUL byte, so all of them when the text has none); the calls made are
exactly get-sentence, one validity query per such character, train, remember
when the option is on, modified, the hand-over and reset. -/
theorem C12_commit_text (env : Env) (s : BopomofoEditor)
    (hne : s.m_text ≠ [])
    (hlen : s.m_pinyin_len ≤ s.m_text.length)
    (hsym : ∀ c ∈ c_str (s.m_text.drop s.m_pinyin_len), ∀ symbols,
      env.pinyin_in_chewing_keyboard c = some symbols → symbols.length = 1) :
    ∃ s1, commit env s = some s1 ∧
      s1.calls = s.calls ++ [Call.pinyin_get_sentence] ++
        (c_str (s.m_text.drop s.m_pinyin_len)).map Call.pinyin_in_chewing_keyboard ++
        [Call.pinyin_train] ++
        (if env.m_config.rememberEveryInput then [Call.rememberUserInput] else []) ++
        [Call.modified,
         Call.PhoneticEditor_commit
           (commitText env (c_str (s.m_text.drop s.m_pinyin_len))),
         Call.PhoneticEditor_reset] ∧
      (0 ∉ s.m_text →
        c_str (s.m_text.drop s.m_pinyin_len) = s.m_text.drop s.m_pinyin_len) := by
  obtain ⟨s2, h2⟩ := commitRest_isSome env (c_str (s.m_text.drop s.m_pinyin_len))
    (commitSentence env s) hsym
  have h1 : commit env s = some (commitFinish env s2) := by
    unfold commit
    rw [isEmpty_eq_false hne]
    simp only [Bool.false_eq_true, if_false, commitSentence_m_text,
      commitSentence_m_pinyin_len]
    rw [if_neg (by omega), h2]
  refine ⟨commitFinish env s2, h1, ?_, c_str_drop_of_not_mem _ _⟩
  rw [commit_eq env s _ hne h1]
  simp only [commitFinish, reset, PhoneticEditor_reset, PhoneticEditor_commit, log]
  split_ifs <;> simp

/-- Witness of C12_commit_text: with the text `su3` recognised up to its second
character and simplified mode, the host gets the sentence followed by the
symbol of the character 3. -/
theorem C12_commit_text_witness :
    ∃ s1, commit sampleEnv { sampleState with m_pinyin_len := 2 } = some s1 ∧
      Call.PhoneticEditor_commit [0xe4, 0xbd, 0xa0, 0x33] ∈ s1.calls := by
  obtain ⟨s1, h1, h2, _⟩ :=
    C12_commit_text sampleEnv { sampleState with m_pinyin_len := 2 } (by decide) (by decide)
      (by decide)
  refine ⟨s1, h1, ?_⟩
  rw [h2]
  decide

/-- C13 (as stated, false): on the non-empty text `su3` with a backend whose
offset translation fails, the assertion of line 332 fails and updatePreeditText
does not return, so nothing is shown. -/
theorem C13_counterexample :
    sampleState.m_text ≠ [] ∧
      failingOffsetEnv.pinyin_get_character_offset failingOffsetEnv.pinyin_get_sentence
        (failingOffsetEnv.getPinyinCursor (preeditState failingOffsetEnv sampleState)) = none ∧
      updatePreeditText failingOffsetEnv sampleState = none := by
  decide

/-- C13 (amended): updatePreeditText asks the host to hide the preedit whenever
the text is empty, whatever the recognised length and the backend; on a
non-empty text with the recognised length within the text and the backend's
offset translation succeeding it returns and shows conv (sentence) followed by
the raw text from m_pinyin_len onward (as the C string shows it: up to a NUL
byte, so all of it when the text has none), with the one attribute single
underline from 0 to -1 (the end of the text), the cursor at the backend's
translation of getPinyinCursor against the unconverted sentence, visible; and
whenever it returns, m_text, m_cursor, m_pinyin_len and m_select_mode are
unchanged. -/
theorem C13_updatePreeditText (env : Env) (s : BopomofoEditor) :
    (s.m_text = [] → updatePreeditText env s = some (log s Call.hidePreeditText)) ∧
      (s.m_text ≠ [] → s.m_pinyin_len ≤ s.m_text.length →
        (env.pinyin_get_character_offset env.pinyin_get_sentence
          (env.getPinyinCursor (preeditState env s))).isSome = true →
        ∃ s1 offset, updatePreeditText env s = some s1 ∧
          env.pinyin_get_character_offset env.pinyin_get_sentence
            (env.getPinyinCursor (preeditState env s)) = some offset ∧
          s1.calls = s.calls ++
            [Call.pinyin_get_sentence,
             Call.pinyin_get_character_offset env.pinyin_get_sentence
               (env.getPinyinCursor (preeditState env s)),
             Call.Editor_updatePreeditText
               (convSentence env ++ c_str (s.m_text.drop s.m_pinyin_len))
               [{ type := IBUS_ATTR_TYPE_UNDERLINE, value := IBUS_ATTR_UNDERLINE_SINGLE,
                  start_index := 0, end_index := -1 }]
               offset true] ∧
          (0 ∉ s.m_text →
            c_str (s.m_text.drop s.m_pinyin_len) = s.m_text.drop s.m_pinyin_len)) ∧
      (∀ s1, updatePreeditText env s = some s1 →
        s1.m_text = s.m_text ∧ s1.m_cursor = s.m_cursor ∧
          s1.m_pinyin_len = s.m_pinyin_len ∧ s1.m_select_mode = s.m_select_mode) := by
  have hstate : { commitSentence env s with
      m_buffer := (commitSentence env s).m_buffer ++
        c_str ((commitSentence env s).m_text.drop (commitSentence env s).m_pinyin_len) } =
      preeditState env s := by
    rw [commitSentence_eq]; rfl
  simp only [commitSentence_m_text, commitSentence_m_pinyin_len] at hstate
  refine ⟨?_, ?_, ?_⟩
  · intro h
    simp [updatePreeditText, h]
  · intro hne hlen hoff
    obtain ⟨offset, hoffset⟩ := Option.isSome_iff_exists.1 hoff
    have hrun : updatePreeditText env s =
        some (log (log (preeditState env s)
            (Call.pinyin_get_character_offset env.pinyin_get_sentence
              (env.getPinyinCursor (preeditState env s))))
          (Call.Editor_updatePreeditText (preeditState env s).m_buffer
            [{ type := IBUS_ATTR_TYPE_UNDERLINE, value := IBUS_ATTR_UNDERLINE_SINGLE,
               start_index := 0, end_index := -1 }] offset true)) := by
      unfold updatePreeditText
      rw [isEmpty_eq_false hne]
      simp only [Bool.false_eq_true, if_false, commitSentence_m_text,
        commitSentence_m_pinyin_len]
      rw [if_neg (by omega), hstate, hoffset]
      rfl
    refine ⟨_, offset, hrun, hoffset, ?_, c_str_drop_of_not_mem _ _⟩
    simp [preeditState]
  · intro s1 h
    unfold updatePreeditText at h
    by_cases hemp : s.m_text.isEmpty = true
    · rw [if_pos hemp] at h
      simp only [Option.some.injEq] at h
      rw [← h]
      exact ⟨rfl, rfl, rfl, rfl⟩
    · rw [if_neg hemp] at h
      simp only [commitSentence_m_text, commitSentence_m_pinyin_len] at h
      by_cases hover : s.m_pinyin_len > s.m_text.length
      · rw [if_pos hover] at h
        cases h
      · rw [if_neg hover, hstate] at h
        cases hq : env.pinyin_get_character_offset env.pinyin_get_sentence
            (env.getPinyinCursor (preeditState env s)) with
        | none =>
          rw [hq] at h
          cases h
        | some offset =>
          rw [hq] at h
          simp only [Option.some.injEq] at h
          rw [← h]
          exact ⟨rfl, rfl, rfl, rfl⟩

/-- Witness of C13_updatePreeditText: the text `su3`, all of it recognised. -/
theorem C13_updatePreeditText_witness :
    ∃ s1 offset, updatePreeditText sampleEnv sampleState = some s1 ∧
      s1.calls =
        [Call.pinyin_get_sentence,
         Call.pinyin_get_character_offset (some [0xe4, 0xbd, 0xa0]) 3,
         Call.Editor_updatePreeditText [0xe4, 0xbd, 0xa0]
           [{ type := IBUS_ATTR_TYPE_UNDERLINE, value := IBUS_ATTR_UNDERLINE_SINGLE,
              start_index := 0, end_index := -1 }] offset true] ∧
      s1.m_text = sampleState.m_text ∧
      updatePreeditText failingOffsetEnv construct =
        some (log construct Call.hidePreeditText) := by
  obtain ⟨s1, offset, h1, _, h3, _⟩ :=
    (C13_updatePreeditText sampleEnv sampleState).2.1 (by decide) (by decide) (by decide)
  have h4 := ((C13_updatePreeditText sampleEnv sampleState).2.2 s1 h1).1
  refine ⟨s1, offset, h1, ?_, h4,
    (C13_updatePreeditText failingOffsetEnv construct).1 rfl⟩
  rw [h3]
  rfl

/-- C14: two modifier masks that agree on the seven bits shift, control, mod1,
super, hyper, meta and lock give the same result of processKeyEvent (handled
flag and state); and the result is that of the first handler that takes the
key, called with the filtered mask, or, when all four decline, that of the
base-class handler the fallback calls, again with the filtered mask. -/
theorem C14_modifier_mask (env : Env) (s : BopomofoEditor) (keyval keycode m1 m2 : Nat)
    (h : m1 &&& KEY_EVENT_MASK = m2 &&& KEY_EVENT_MASK) :
    processKeyEvent env s keyval keycode m1 = processKeyEvent env s keyval keycode m2 ∧
      ((∃ s1, processGuideKey env s keyval keycode (m1 &&& KEY_EVENT_MASK) = (true, s1) ∧
          processKeyEvent env s keyval keycode m1 = some (true, s1)) ∨
       (processSelectKey env s keyval keycode (m1 &&& KEY_EVENT_MASK) = none ∧
          processKeyEvent env s keyval keycode m1 = none) ∨
       (∃ s1, processSelectKey env s keyval keycode (m1 &&& KEY_EVENT_MASK) =
            some (true, s1) ∧
          processKeyEvent env s keyval keycode m1 = some (true, s1)) ∨
       (∃ s1, processAuxiliarySelectKey env s keyval keycode (m1 &&& KEY_EVENT_MASK) =
            (true, s1) ∧
          processKeyEvent env s keyval keycode m1 = some (true, s1)) ∨
       (processBopomofo env s keyval keycode (m1 &&& KEY_EVENT_MASK) = none ∧
          processKeyEvent env s keyval keycode m1 = none) ∨
       (∃ s1, processBopomofo env s keyval keycode (m1 &&& KEY_EVENT_MASK) =
            some (true, s1) ∧
          processKeyEvent env s keyval keycode m1 = some (true, s1)) ∨
       (∃ s4 s5, processBopomofo env s keyval keycode (m1 &&& KEY_EVENT_MASK) =
            some (false, s4) ∧
          (processKeyEvent env s keyval keycode m1 =
              env.processSpace
                (log s5 (Call.processSpace keyval keycode (m1 &&& KEY_EVENT_MASK)))
                keyval keycode (m1 &&& KEY_EVENT_MASK) ∨
            processKeyEvent env s keyval keycode m1 =
              env.processFunctionKey
                (log s5 (Call.processFunctionKey keyval keycode (m1 &&& KEY_EVENT_MASK)))
                keyval keycode (m1 &&& KEY_EVENT_MASK)))) := by
  constructor
  · unfold processKeyEvent
    simp only [h]
  · rcases hg : processGuideKey env s keyval keycode (m1 &&& KEY_EVENT_MASK) with ⟨b, s1⟩
    cases b
    · have e1 := processGuideKey_false env s s1 keyval keycode _ hg
      subst e1
      rcases hs : processSelectKey env s1 keyval keycode (m1 &&& KEY_EVENT_MASK)
        with _ | ⟨b, s2⟩
      · right; left
        exact ⟨rfl, by simp only [processKeyEvent, hg, hs]⟩
      · cases b
        · have e2 := processSelectKey_false env s1 s2 keyval keycode _ hs
          subst e2
          rcases ha : processAuxiliarySelectKey env s2 keyval keycode
            (m1 &&& KEY_EVENT_MASK) with ⟨b, s3⟩
          cases b
          · have e3 := processAuxiliarySelectKey_false env s2 s3 keyval keycode _ ha
            subst e3
            rcases hb : processBopomofo env s3 keyval keycode (m1 &&& KEY_EVENT_MASK)
              with _ | ⟨b, s4⟩
            · right; right; right; right; left
              exact ⟨rfl, by simp only [processKeyEvent, hg, hs, ha, hb]⟩
            · cases b
              · right; right; right; right; right; right
                obtain ⟨s5, h5⟩ := processKeyEventFallback_delegate env s4 keyval keycode
                  (m1 &&& KEY_EVENT_MASK)
                have hk : processKeyEvent env s3 keyval keycode m1 =
                    processKeyEventFallback env s4 keyval keycode
                      (m1 &&& KEY_EVENT_MASK) := by
                  simp only [processKeyEvent, hg, hs, ha, hb]
                refine ⟨s4, s5, rfl, ?_⟩
                rw [hk]
                exact h5
              · right; right; right; right; right; left
                exact ⟨s4, rfl, by simp only [processKeyEvent, hg, hs, ha, hb]⟩
          · right; right; right; left
            exact ⟨s3, rfl, by simp only [processKeyEvent, hg, hs, ha]⟩
        · right; right; left
          exact ⟨s2, rfl, by simp only [processKeyEvent, hg, hs]⟩
    · left
      exact ⟨s1, rfl, by simp only [processKeyEvent, hg]⟩

/-- Witness of C14_modifier_mask: the bit 16 (mod2, num-lock) is outside the
seven bits, so the key b with and without it gives the same result. -/
theorem C14_modifier_mask_witness :
    processKeyEvent sampleEnv sampleState 0x62 0 16 =
      processKeyEvent sampleEnv sampleState 0x62 0 0 :=
  (C14_modifier_mask sampleEnv sampleState 0x62 0 16 0 (by decide)).1

/-- C15: in mode Selecting with a non-empty text, a key that stands at position
i of the active ordering is handled by processKeyEvent, whatever the modifiers
and whatever the backend says about the key: the one candidate call
selectCandidateInPage (i) and update are logged, no validity query is made and
the text, cursor and recognised length are as before, so insert was not
called. -/
theorem C15_select_key_before_insert (env : Env) (s : BopomofoEditor)
    (keyval keycode modifiers : Nat) (keys : List Nat) (i : Nat)
    (hmode : s.m_select_mode = true) (hne : s.m_text ≠ [])
    (hkeys : bopomofo_select_keys[env.m_config.selectKeys]? = some keys)
    (hi : keys[i]? = some keyval) :
    processKeyEvent env s keyval keycode modifiers =
      some (true, { s with
        calls := s.calls ++ [Call.selectCandidateInPage i, Call.update] }) := by
  have hg := processGuideKey_selecting env s keyval keycode (modifiers &&& KEY_EVENT_MASK)
    hmode
  have hnd : keys.Nodup := (bopomofo_select_keys_nodup keys (List.getElem?_mem hkeys)).1
  have hscan := scanSelectKeys_nodup keyval keys i 0 none hnd hi
  rw [Nat.zero_add] at hscan
  have hs : processSelectKey env s keyval keycode (modifiers &&& KEY_EVENT_MASK) =
      some (true, { s with
        calls := s.calls ++ [Call.selectCandidateInPage i, Call.update] }) := by
    cases s with
    | mk text cursor len mode buffer calls =>
      simp only at hmode hne
      subst hmode
      simp [processSelectKey, isEmpty_eq_false hne, hkeys, hscan, update,
        selectCandidateInPage, log]
  simp only [processKeyEvent, hg, hs]

/-- Witness of C15_select_key_before_insert: the key 3 in mode Selecting on the
text `su3` picks the candidate at position 2 although the backend knows 3 as a
phonetic symbol. -/
theorem C15_select_key_before_insert_witness :
    (sampleEnv.pinyin_in_chewing_keyboard 0x33).isSome = true ∧
      processKeyEvent sampleEnv selectingState 0x33 0 0 =
        some (true, { selectingState with
          calls := selectingState.calls ++ [Call.selectCandidateInPage 2, Call.update] }) :=
  ⟨by decide,
    C15_select_key_before_insert sampleEnv selectingState 0x33 0 0 (bytes "1234567890") 2
      rfl (by decide) rfl (by decide)⟩

/-- C16 (as stated, false): the arrow keys up and down are not in the group
that sets the mode to Composing; the fallback sets the mode to Selecting for
them before it calls the base-class handler. -/
theorem C16_counterexample :
    sampleState.m_select_mode = false ∧
      processKeyEventFallback sampleEnv sampleState IBUS_Up 0 0 =
        sampleEnv.processFunctionKey
          (log { sampleState with m_select_mode := true }
            (Call.processFunctionKey IBUS_Up 0 0)) IBUS_Up 0 0 ∧
      processKeyEventFallback sampleEnv selectingState IBUS_Down 0 0 =
        some (false, { selectingState with
          m_select_mode := true, calls := [Call.processFunctionKey IBUS_Down 0 0] }) := by
  decide

/-- C16 (amended): in the fallback of processKeyEvent, backspace, delete, left,
right, home and end (and their keypad variants) set the mode to Composing
before PhoneticEditor::processFunctionKey is called; up, down, page-up,
page-down (and their keypad variants) and tab set it to Selecting before that
call; space sets it to Selecting before PhoneticEditor::processSpace is called;
any other key goes to processFunctionKey with the mode untouched; in every case
the result, handled flag included, is the base-class handler's result. -/
theorem C16_fallback (env : Env) (s : BopomofoEditor) (keyval keycode modifiers : Nat) :
    (keyval ∈ [IBUS_BackSpace, IBUS_Delete, IBUS_KP_Delete, IBUS_Left, IBUS_KP_Left,
        IBUS_Right, IBUS_KP_Right, IBUS_Home, IBUS_KP_Home, IBUS_End, IBUS_KP_End] →
      processKeyEventFallback env s keyval keycode modifiers =
        env.processFunctionKey
          (log { s with m_select_mode := false }
            (Call.processFunctionKey keyval keycode modifiers))
          keyval keycode modifiers) ∧
    (keyval ∈ [IBUS_Up, IBUS_KP_Up, IBUS_Down, IBUS_KP_Down, IBUS_Page_Up,
        IBUS_KP_Page_Up, IBUS_Page_Down, IBUS_KP_Page_Down, IBUS_Tab] →
      processKeyEventFallback env s keyval keycode modifiers =
        env.processFunctionKey
          (log { s with m_select_mode := true }
            (Call.processFunctionKey keyval keycode modifiers))
          keyval keycode modifiers) ∧
    (keyval = IBUS_space →
      processKeyEventFallback env s keyval keycode modifiers =
        env.processSpace
          (log { s with m_select_mode := true }
            (Call.processSpace keyval keycode modifiers))
          keyval keycode modifiers) ∧
    (keyval ∉ [IBUS_space, IBUS_BackSpace, IBUS_Delete, IBUS_KP_Delete, IBUS_Left,
        IBUS_KP_Left, IBUS_Right, IBUS_KP_Right, IBUS_Home, IBUS_KP_Home, IBUS_End,
        IBUS_KP_End, IBUS_Up, IBUS_KP_Up, IBUS_Down, IBUS_KP_Down, IBUS_Page_Up,
        IBUS_KP_Page_Up, IBUS_Page_Down, IBUS_KP_Page_Down, IBUS_Tab] →
      processKeyEventFallback env s keyval keycode modifiers =
        env.processFunctionKey
          (log s (Call.processFunctionKey keyval keycode modifiers))
          keyval keycode modifiers) := by
  refine ⟨?_, ?_, ?_, ?_⟩
  · intro hk
    simp only [List.mem_cons, List.mem_singleton, List.not_mem_nil, or_false] at hk
    unfold processKeyEventFallback
    rcases hk with hk | hk | hk | hk | hk | hk | hk | hk | hk | hk | hk <;> subst hk <;>
      simp [IBUS_space, IBUS_BackSpace, IBUS_Delete, IBUS_KP_Delete, IBUS_Left,
        IBUS_KP_Left, IBUS_Right, IBUS_KP_Right, IBUS_Home, IBUS_KP_Home, IBUS_End,
        IBUS_KP_End, IBUS_Up, IBUS_KP_Up, IBUS_Down, IBUS_KP_Down, IBUS_Page_Up,
        IBUS_KP_Page_Up, IBUS_Page_Down, IBUS_KP_Page_Down, IBUS_Tab]
  · intro hk
    simp only [List.mem_cons, List.mem_singleton, List.not_mem_nil, or_false] at hk
    unfold processKeyEventFallback
    rcases hk with hk | hk | hk | hk | hk | hk | hk | hk | hk <;> subst hk <;>
      simp [IBUS_space, IBUS_BackSpace, IBUS_Delete, IBUS_KP_Delete, IBUS_Left,
        IBUS_KP_Left, IBUS_Right, IBUS_KP_Right, IBUS_Home, IBUS_KP_Home, IBUS_End,
        IBUS_KP_End, IBUS_Up, IBUS_KP_Up, IBUS_Down, IBUS_KP_Down, IBUS_Page_Up,
        IBUS_KP_Page_Up, IBUS_Page_Down, IBUS_KP_Page_Down, IBUS_Tab]
  · intro hk
    subst hk
    simp [processKeyEventFallback]
  · intro hk
    simp only [List.mem_cons, List.mem_singleton, List.not_mem_nil, or_false, not_or] at hk
    unfold processKeyEventFallback
    simp [hk]

/-- Witness of C16_fallback: backspace in mode Selecting goes to the base-class
handler with the mode set to Composing. -/
theorem C16_fallback_witness :
    processKeyEventFallback sampleEnv selectingState IBUS_BackSpace 0 0 =
      sampleEnv.processFunctionKey
        (log { selectingState with m_select_mode := false }
          (Call.processFunctionKey IBUS_BackSpace 0 0)) IBUS_BackSpace 0 0 :=
  (C16_fallback sampleEnv selectingState IBUS_BackSpace 0 0).1 (by decide)

/-- C17: processBopomofo called with space never inserts: with a non-trivial
modifier held it returns the state untouched (handled exactly when the text is
non-empty); with none held it returns FALSE after the one validity query,
whatever the backend answers; text, cursor, recognised length and mode are
unchanged either way. -/
theorem C17_space_is_never_inserted (env : Env) (s : BopomofoEditor)
    (keycode modifiers : Nat) :
    (cmshm_filter modifiers ≠ 0 →
        processBopomofo env s IBUS_space keycode modifiers =
          some (!s.m_text.isEmpty, s)) ∧
      (cmshm_filter modifiers = 0 →
        processBopomofo env s IBUS_space keycode modifiers =
          some (false, log s (Call.pinyin_in_chewing_keyboard IBUS_space))) ∧
      (∃ r s1, processBopomofo env s IBUS_space keycode modifiers = some (r, s1) ∧
        s1.m_text = s.m_text ∧ s1.m_cursor = s.m_cursor ∧
        s1.m_pinyin_len = s.m_pinyin_len ∧ s1.m_select_mode = s.m_select_mode ∧
        Call.update ∉ s1.calls.drop s.calls.length) := by
  have h1 : cmshm_filter modifiers ≠ 0 →
      processBopomofo env s IBUS_space keycode modifiers = some (!s.m_text.isEmpty, s) := by
    intro hm
    unfold processBopomofo
    rw [if_pos hm]
  have h2 : cmshm_filter modifiers = 0 →
      processBopomofo env s IBUS_space keycode modifiers =
        some (false, log s (Call.pinyin_in_chewing_keyboard IBUS_space)) := by
    intro hm
    unfold processBopomofo
    rw [if_neg (by simpa using hm)]
    cases env.pinyin_in_chewing_keyboard IBUS_space <;> simp
  refine ⟨h1, h2, ?_⟩
  by_cases hm : cmshm_filter modifiers = 0
  · exact ⟨_, _, h2 hm, rfl, rfl, rfl, rfl, by simp⟩
  · exact ⟨_, _, h1 hm, rfl, rfl, rfl, rfl, by simp⟩

/-- Witness of C17_space_is_never_inserted: the sample backend knows space as a
symbol, and space without modifiers on the text `su3` is still declined. -/
theorem C17_space_is_never_inserted_witness :
    (sampleEnv.pinyin_in_chewing_keyboard IBUS_space).isSome = true ∧
      processBopomofo sampleEnv sampleState IBUS_space 0 0 =
        some (false, log sampleState (Call.pinyin_in_chewing_keyboard IBUS_space)) :=
  ⟨by decide, (C17_space_is_never_inserted sampleEnv sampleState 0 0).2.1 (by decide)⟩

/-- C18: with a non-trivial modifier held processBopomofo returns the state it
was given (no validity query logged, no insertion; text, cursor, mode and
recognised length unchanged), and the handled flag is TRUE exactly when the
text is non-empty. -/
theorem C18_processBopomofo_with_modifier (env : Env) (s : BopomofoEditor)
    (keyval keycode modifiers : Nat) (hmod : cmshm_filter modifiers ≠ 0) :
    ∃ r, processBopomofo env s keyval keycode modifiers = some (r, s) ∧
      (r = true ↔ s.m_text ≠ []) := by
  refine ⟨!s.m_text.isEmpty, ?_, ?_⟩
  · unfold processBopomofo
    rw [if_pos hmod]
  · cases s.m_text <;> simp

/-- Witness of C18_processBopomofo_with_modifier: Control+b on the text `su3`
is swallowed, on the fresh editor it is not. -/
theorem C18_processBopomofo_with_modifier_witness :
    (∃ r, processBopomofo sampleEnv sampleState 0x62 0 IBUS_CONTROL_MASK =
        some (r, sampleState) ∧ (r = true ↔ sampleState.m_text ≠ [])) ∧
      processBopomofo sampleEnv construct 0x62 0 IBUS_CONTROL_MASK =
        some (false, construct) :=
  ⟨C18_processBopomofo_with_modifier sampleEnv sampleState 0x62 0 IBUS_CONTROL_MASK
    (by decide), by decide⟩

/-- C19: with a non-empty text, a non-trivial modifier held and a select-key
setting inside the table, processKeyEvent returns handled and the result is
either the state it was given (processBopomofo swallows the key) or that state
after a candidate pick by processSelectKey; so no base-class key handler is
called, and text and cursor are unchanged. -/
theorem C19_modified_key_is_swallowed (env : Env) (s : BopomofoEditor)
    (keyval keycode modifiers : Nat)
    (hne : s.m_text ≠ []) (hmod : cmshm_filter modifiers ≠ 0)
    (hidx : env.m_config.selectKeys < 9) :
    ∃ s1, processKeyEvent env s keyval keycode modifiers = some (true, s1) ∧
      (s1 = s ∨ ∃ i, s1 = { s with
        m_select_mode := true,
        calls := s.calls ++ [Call.selectCandidateInPage i, Call.update] }) ∧
      s1.m_text = s.m_text ∧ s1.m_cursor = s.m_cursor := by
  have hm : cmshm_filter (modifiers &&& KEY_EVENT_MASK) ≠ 0 := by
    rw [cmshm_filter_mask]; exact hmod
  have hg := processGuideKey_with_modifier env s keyval keycode _ hm
  have ha := processAuxiliarySelectKey_with_modifier env s keyval keycode _ hm
  have hb : processBopomofo env s keyval keycode (modifiers &&& KEY_EVENT_MASK) =
      some (true, s) := by
    unfold processBopomofo
    rw [if_pos hm, isEmpty_eq_false hne]
    rfl
  rcases processSelectKey_cases env s keyval keycode (modifiers &&& KEY_EVENT_MASK) hidx
    with hs | ⟨i, hs⟩
  · exact ⟨s, by simp only [processKeyEvent, hg, hs, ha, hb], Or.inl rfl, rfl, rfl⟩
  · exact ⟨_, by simp only [processKeyEvent, hg, hs], Or.inr ⟨i, rfl⟩, rfl, rfl⟩

/-- Witness of C19_modified_key_is_swallowed: Control+BackSpace on the text
`su3` is handled and the text and cursor stay as they are. -/
theorem C19_modified_key_is_swallowed_witness :
    ∃ s1, processKeyEvent sampleEnv sampleState IBUS_BackSpace 0 IBUS_CONTROL_MASK =
        some (true, s1) ∧
      s1.m_text = [0x73, 0x75, 0x33] ∧ s1.m_cursor = 3 := by
  obtain ⟨s1, h1, _, h3, h4⟩ :=
    C19_modified_key_is_swallowed sampleEnv sampleState IBUS_BackSpace 0 IBUS_CONTROL_MASK
      (by decide) (by decide) (by decide)
  exact ⟨s1, h1, h3, h4⟩

/-- C20: the table bopomofo_select_keys has 9 orderings, each of 10 pairwise
distinct characters; so for every setting 0..8 the lookup is inside the table,
and for every key of the chosen ordering the scan of processSelectKey ends at
an index below 10 which is the key's first position, and its only one. -/
theorem C20_select_key_table :
    bopomofo_select_keys.length = 9 ∧
      (∀ keys ∈ bopomofo_select_keys, keys.length = 10 ∧ keys.Nodup) ∧
      (∀ idx, idx < 9 →
        ∃ keys, bopomofo_select_keys[idx]? = some keys ∧
          ∀ keyval ∈ keys, ∃ i, i < 10 ∧
            scanSelectKeys keyval keys 0 none = some i ∧
            keys.indexOf keyval = i ∧ keys[i]? = some keyval ∧
            ∀ j, keys[j]? = some keyval → j = i) := by
  refine ⟨rfl, fun keys hk => ⟨(bopomofo_select_keys_nodup keys hk).2,
    (bopomofo_select_keys_nodup keys hk).1⟩, ?_⟩
  intro idx hidx
  have hlen : idx < bopomofo_select_keys.length := hidx
  refine ⟨bopomofo_select_keys[idx], List.getElem?_eq_getElem hlen, ?_⟩
  obtain ⟨hnd, h10⟩ := bopomofo_select_keys_nodup bopomofo_select_keys[idx]
    (List.getElem_mem hlen)
  intro keyval hmem
  obtain ⟨i, hi⟩ := List.mem_iff_getElem?.1 hmem
  obtain ⟨hil, hie⟩ := List.getElem?_eq_some.1 hi
  have hscan := scanSelectKeys_nodup keyval _ i 0 none hnd hi
  rw [Nat.zero_add] at hscan
  have hidxof : List.indexOf keyval bopomofo_select_keys[idx] = i := by
    rw [← hie]
    exact List.indexOf_getElem hnd i hil
  refine ⟨i, by omega, hscan, hidxof, hi, ?_⟩
  intro j hj
  obtain ⟨hjl, hje⟩ := List.getElem?_eq_some.1 hj
  rw [← hidxof, ← hje]
  exact (List.indexOf_getElem hnd j hjl).symm

/-- Witness of C20_select_key_table: in the third ordering `1qaz2wsxed` the key
z is found at position 3. -/
theorem C20_select_key_table_witness :
    ∃ keys, bopomofo_select_keys[2]? = some keys ∧
      scanSelectKeys 0x7a keys 0 none = some 3 := by
  obtain ⟨keys, hk, _⟩ := C20_select_key_table.2.2 2 (by decide)
  exact ⟨keys, hk, by
    have e : keys = bytes "1qaz2wsxed" := by
      have h2 : bopomofo_select_keys[2]? = some (bytes "1qaz2wsxed") := rfl
      rw [hk] at h2
      exact Option.some.inj h2
    subst e
    decide⟩

end PY
